import Mathlib

/-!
Verification of the GitHub auto-labeling engine (`src/github-auto-labeler.ts`).

The engine is embedded shallowly:

* `LabelingRule`, `AutoLabelConfig`, `AutoLabelResult` mirror the TypeScript
  interfaces.  Optional TypeScript fields become `Option`; a `Partial` config
  argument becomes a record of doubly-optional fields (`none` = field absent
  from the object, `some none` = field present but `undefined`), which is
  exactly how the spread operator `{...base, ...patch}` distinguishes them.
* Regular expressions are modelled as boolean predicates on strings
  (`pattern : String → Bool`); the engine only ever calls `pattern.test`.
* The gateway (`GitHubClient`) is a record of state-passing operations over an
  abstract state `σ`; each operation may fail with a message, matching the
  `async`/`throw` behaviour of the client.  `run` threads the state and also
  records the trace of gateway calls it performs, so that claims about which
  network operations happen (and in which order) are statable.
-/

/-- Issue states accepted by `getRepoIssues` (TS union `'open' | 'closed' | 'all'`). -/
inductive IssueState
  | opened
  | closed
  | all
deriving Repr, DecidableEq

/-- An issue as seen by the auto labeler: `number`, `title`, optional `body`,
and the list of labels already on the issue. -/
structure Issue where
  number : Nat
  title : String
  body : Option String
  labels : List String
deriving Repr, DecidableEq

/-- A repository label: `name`, `color`, optional `description`. -/
structure Label where
  name : String
  color : String
  description : Option String
deriving Repr, DecidableEq

/-- `LabelingRule` from the source: a pattern (regex, modelled as a string
predicate), the labels to apply on a match, and an optional description. -/
structure LabelingRule where
  pattern : String → Bool
  labels : List String
  description : Option String

/-- `AutoLabelConfig`: every field is optional in the TS interface, so each is
an `Option` (`none` = `undefined`). -/
structure AutoLabelConfig where
  createMissingLabels : Option Bool
  defaultLabelColor : Option String
  relabelExistingIssues : Option Bool
  issueState : Option IssueState
deriving Repr, DecidableEq

/-- A `Partial<AutoLabelConfig>` object: `none` means the field is absent from
the object literal, `some v` means the field is present with value `v`
(possibly `undefined`, i.e. `some none`).  The spread `{...base, ...patch}`
overrides a field exactly when it is present in `patch`. -/
structure AutoLabelConfigPatch where
  createMissingLabels : Option (Option Bool)
  defaultLabelColor : Option (Option String)
  relabelExistingIssues : Option (Option Bool)
  issueState : Option (Option IssueState)
deriving Repr, DecidableEq

/-- The empty object literal `{}` used as the constructor's default argument. -/
def emptyPatch : AutoLabelConfigPatch := ⟨none, none, none, none⟩

/-- `DEFAULT_CONFIG` from the source. -/
def DEFAULT_CONFIG : AutoLabelConfig :=
  { createMissingLabels := some false
    defaultLabelColor := some "0075ca"
    relabelExistingIssues := some true
    issueState := some IssueState.opened }

/-- The spread merge `{...base, ...patch}` on configurations. -/
def mergeConfig (base : AutoLabelConfig) (p : AutoLabelConfigPatch) : AutoLabelConfig :=
  { createMissingLabels := p.createMissingLabels.getD base.createMissingLabels
    defaultLabelColor := p.defaultLabelColor.getD base.defaultLabelColor
    relabelExistingIssues := p.relabelExistingIssues.getD base.relabelExistingIssues
    issueState := p.issueState.getD base.issueState }

/-- JavaScript truthiness of an optional boolean (`undefined` is falsy). -/
def truthy (o : Option Bool) : Bool := o.getD false

/-- `this.config.defaultLabelColor || '0075ca'`: JavaScript `||` falls through
on `undefined` and on the empty string. -/
def colorOrDefault (o : Option String) : String :=
  match o with
  | none => "0075ca"
  | some s => if s = "" then "0075ca" else s

/-- The engine object: its rule list and current configuration. -/
structure GitHubAutoLabeler where
  rules : List LabelingRule
  config : AutoLabelConfig

/-- The constructor: empty rule list, overrides merged onto `DEFAULT_CONFIG`. -/
def newAutoLabeler (p : AutoLabelConfigPatch) : GitHubAutoLabeler :=
  { rules := [], config := mergeConfig DEFAULT_CONFIG p }

/-- `addRule`: appends one rule. -/
def GitHubAutoLabeler.addRule (e : GitHubAutoLabeler) (r : LabelingRule) : GitHubAutoLabeler :=
  { e with rules := e.rules ++ [r] }

/-- `addRules`: appends a list of rules. -/
def GitHubAutoLabeler.addRules (e : GitHubAutoLabeler) (rs : List LabelingRule) : GitHubAutoLabeler :=
  { e with rules := e.rules ++ rs }

/-- `setConfig`: spread-merges the patch onto the current configuration. -/
def GitHubAutoLabeler.setConfig (e : GitHubAutoLabeler) (p : AutoLabelConfigPatch) : GitHubAutoLabeler :=
  { e with config := mergeConfig e.config p }

/-- One entry of `AutoLabelResult.details`. -/
structure Detail where
  issueNumber : Nat
  title : String
  appliedLabels : List String
deriving Repr, DecidableEq

/-- `AutoLabelResult` from the source. -/
structure AutoLabelResult where
  totalIssues : Nat
  labeledIssues : Nat
  labelsCreated : Nat
  details : List Detail
deriving Repr, DecidableEq

/-- Errors `run()` can throw: its own precondition error, or an error
propagated unchanged from a gateway call. -/
inductive RunError
  | noRulesConfigured
  | gatewayError (msg : String)
deriving Repr, DecidableEq

/-- Trace of gateway calls made during a run.  A `createLabel` event also
records whether the gateway call succeeded. -/
inductive GatewayEvent
  | fetchIssues (state : Option IssueState)
  | fetchLabels
  | createLabel (name color description : String) (ok : Bool)
  | labelIssue (number : Nat) (labels : List String)
deriving Repr, DecidableEq

/-- The gateway interface consumed by the engine (the four `GitHubClient`
methods the auto labeler calls), over an abstract gateway state `σ`. -/
structure GatewayOps (σ : Type) where
  getRepoIssues : Option IssueState → σ → Except String (List Issue) × σ
  getRepoLabels : σ → Except String (List Label) × σ
  createLabel : String → String → String → σ → Except String Unit × σ
  labelIssue : Nat → List String → σ → Except String Unit × σ

/-- Insertion into a JS `Set` viewed as a list in insertion order:
`labelsToAdd.add(label)`. -/
def insertLabel (xs : List String) (l : String) : List String :=
  if xs.contains l then xs else xs ++ [l]

/-- The match text: `` `${issue.title} ${issue.body || ''}` ``. -/
def issueText (i : Issue) : String := i.title ++ " " ++ i.body.getD ""

/-- The per-issue candidate set: every matching rule contributes its labels to
the `labelsToAdd` set, in rule order then label order (JS `Set` iteration is
insertion order). -/
def matchedLabels (rules : List LabelingRule) (text : String) : List String :=
  rules.foldl
    (fun acc r => if r.pattern text then r.labels.foldl insertLabel acc else acc) []

/-- The label-creation loop of `run()` for one issue: walk the candidate
labels; for each one not in the known-name set, call `createLabel` with the
configured (defaulted) color and the generated description; on success add the
name to the known set and bump the counter; on failure log and continue.
Returns the updated known-name set, the number of labels created, the trace of
create calls, and the final gateway state. -/
def createMissing (ops : GatewayOps σ) (color : String) :
    List String → List String → σ → List String × Nat × List GatewayEvent × σ
  | [], avail, s => (avail, 0, [], s)
  | l :: rest, avail, s =>
    if avail.contains l then
      createMissing ops color rest avail s
    else
      match ops.createLabel l color ("Auto-created label for " ++ l) s with
      | (Except.ok _, s1) =>
        match createMissing ops color rest (avail ++ [l]) s1 with
        | (avail1, k, ev, s2) =>
          (avail1, k + 1, GatewayEvent.createLabel l color ("Auto-created label for " ++ l) true :: ev, s2)
      | (Except.error _, s1) =>
        match createMissing ops color rest avail s1 with
        | (avail1, k, ev, s2) =>
          (avail1, k, GatewayEvent.createLabel l color ("Auto-created label for " ++ l) false :: ev, s2)

/-- The `for (const issue of issues)` loop of `run()`.  `avail` is the local
`availableLabelNames` cache, `res` the accumulating result.  Returns the final
result (or the propagated apply error), the trace of gateway calls made by the
loop, and the final gateway state. -/
def processIssues (ops : GatewayOps σ) (rules : List LabelingRule) (cfg : AutoLabelConfig) :
    List Issue → List String → AutoLabelResult → σ →
      Except RunError AutoLabelResult × List GatewayEvent × σ
  | [], _, res, s => (Except.ok res, [], s)
  | issue :: rest, avail, res, s =>
    if !truthy cfg.relabelExistingIssues && !issue.labels.isEmpty then
      processIssues ops rules cfg rest avail res s
    else
      match
        (if truthy cfg.createMissingLabels then
          createMissing ops (colorOrDefault cfg.defaultLabelColor)
            (matchedLabels rules (issueText issue)) avail s
        else (avail, 0, [], s)) with
      | (avail1, created, evC, s1) =>
        match (matchedLabels rules (issueText issue)).filter (fun l => avail1.contains l) with
        | [] =>
          match processIssues ops rules cfg rest avail1
              { res with labelsCreated := res.labelsCreated + created } s1 with
          | (out, evR, s2) => (out, evC ++ evR, s2)
        | v :: vs =>
          match ops.labelIssue issue.number (v :: vs) s1 with
          | (Except.error e, s2) =>
            (Except.error (RunError.gatewayError e),
              evC ++ [GatewayEvent.labelIssue issue.number (v :: vs)], s2)
          | (Except.ok _, s2) =>
            match processIssues ops rules cfg rest avail1
                { totalIssues := res.totalIssues
                  labeledIssues := res.labeledIssues + 1
                  labelsCreated := res.labelsCreated + created
                  details := res.details ++ [⟨issue.number, issue.title, v :: vs⟩] } s2 with
            | (out, evR, s2') =>
              (out, evC ++ GatewayEvent.labelIssue issue.number (v :: vs) :: evR, s2')

/-- `run()`: precondition check, the two fetches, then the issue loop.
Returns the result-or-error, the full gateway trace, and the final gateway
state. -/
def run (ops : GatewayOps σ) (rules : List LabelingRule) (cfg : AutoLabelConfig) (s : σ) :
    Except RunError AutoLabelResult × List GatewayEvent × σ :=
  if rules.isEmpty then (Except.error RunError.noRulesConfigured, [], s)
  else
    match ops.getRepoIssues cfg.issueState s with
    | (Except.error e, s1) =>
      (Except.error (RunError.gatewayError e), [GatewayEvent.fetchIssues cfg.issueState], s1)
    | (Except.ok issues, s1) =>
      match ops.getRepoLabels s1 with
      | (Except.error e, s2) =>
        (Except.error (RunError.gatewayError e),
          [GatewayEvent.fetchIssues cfg.issueState, GatewayEvent.fetchLabels], s2)
      | (Except.ok availableLabels, s2) =>
        match processIssues ops rules cfg issues (availableLabels.map Label.name)
            { totalIssues := issues.length, labeledIssues := 0, labelsCreated := 0, details := [] }
            s2 with
        | (out, ev, s3) =>
          (out, GatewayEvent.fetchIssues cfg.issueState :: GatewayEvent.fetchLabels :: ev, s3)

/-- A stateless, scripted gateway: issue and label fetches return fixed
results, creation succeeds or fails per label name, application per call. -/
def scripted (issuesR : Except String (List Issue)) (labelsR : Except String (List Label))
    (createR : String → Except String Unit) (applyR : Nat → List String → Except String Unit) :
    GatewayOps Unit :=
  { getRepoIssues := fun _ s => (issuesR, s)
    getRepoLabels := fun s => (labelsR, s)
    createLabel := fun n _ _ s => (createR n, s)
    labelIssue := fun n ls s => (applyR n ls, s) }

/-- A concrete repository state for the honest gateway. -/
structure RepoState where
  issues : List Issue
  repoLabels : List Label
deriving Repr, DecidableEq

/-- The honest gateway: every call succeeds; `createLabel` appends to the
repository label set and `labelIssue` appends the given labels to the issue
with the given number, so label applications become visible to later runs. -/
def repoOps : GatewayOps RepoState :=
  { getRepoIssues := fun _ s => (Except.ok s.issues, s)
    getRepoLabels := fun s => (Except.ok s.repoLabels, s)
    createLabel := fun n c d s => (Except.ok (), ⟨s.issues, s.repoLabels ++ [⟨n, c, some d⟩]⟩)
    labelIssue := fun num ls s =>
      (Except.ok (),
        ⟨s.issues.map fun i =>
          if i.number = num then ⟨i.number, i.title, i.body, i.labels ++ ls⟩ else i,
        s.repoLabels⟩) }

/-- Names of the labels successfully created in a trace. -/
def createdNames (evs : List GatewayEvent) : List String :=
  evs.filterMap fun e =>
    match e with
    | GatewayEvent.createLabel n _ _ true => some n
    | _ => none

/-- The label-application events of a trace. -/
def applyEvents (evs : List GatewayEvent) : List GatewayEvent :=
  evs.filter fun e =>
    match e with
    | GatewayEvent.labelIssue _ _ => true
    | _ => false

/-- Whether an event is a label-creation call. -/
def isCreateEvent : GatewayEvent → Bool
  | GatewayEvent.createLabel _ _ _ _ => true
  | _ => false

/-- The label-application event a details entry corresponds to. -/
def detailEvent (d : Detail) : GatewayEvent :=
  GatewayEvent.labelIssue d.issueNumber d.appliedLabels

/-- The issue number of a label-application event. -/
def applyNumOf : GatewayEvent → Option Nat
  | GatewayEvent.labelIssue m _ => some m
  | _ => none

/-- Number of label-application calls for a given issue number in a trace. -/
def countApply (n : Nat) (evs : List GatewayEvent) : Nat :=
  (evs.filterMap applyNumOf).count n

/-! ## Basic trace lemmas -/

theorem createdNames_append (a b : List GatewayEvent) :
    createdNames (a ++ b) = createdNames a ++ createdNames b :=
  List.filterMap_append a b _

theorem applyEvents_append (a b : List GatewayEvent) :
    applyEvents (a ++ b) = applyEvents a ++ applyEvents b :=
  List.filter_append a b

theorem contains_iff_mem (l : List String) (a : String) : l.contains a = true ↔ a ∈ l := by
  simp

/-! ## The label-creation loop -/

/-- What one `createMissing` pass guarantees: the known-name set grows by
exactly the successfully created names (in order), the counter counts them,
the created names are distinct and were not previously known, no
label-application call is made, and every call issued is a `createLabel` call
with the given color, the generated description, and a candidate name that was
not previously known. -/
theorem createMissing_spec (ops : GatewayOps σ) (color : String) :
    ∀ (ls avail : List String) (s : σ) (avail1 : List String) (k : Nat)
      (ev : List GatewayEvent) (s1 : σ),
      createMissing ops color ls avail s = (avail1, k, ev, s1) →
      avail1 = avail ++ createdNames ev ∧
      k = (createdNames ev).length ∧
      (createdNames ev).Nodup ∧
      (∀ n ∈ createdNames ev, n ∉ avail) ∧
      applyEvents ev = [] ∧
      (∀ e ∈ ev, ∃ n ok,
        e = GatewayEvent.createLabel n color ("Auto-created label for " ++ n) ok ∧
        n ∉ avail ∧ n ∈ ls) := by
  intro ls
  induction ls with
  | nil =>
    intro avail s avail1 k ev s1 h
    simp only [createMissing, Prod.mk.injEq] at h
    obtain ⟨rfl, rfl, rfl, rfl⟩ := h
    simp [createdNames, applyEvents]
  | cons l rest ih =>
    intro avail s avail1 k ev s1 h
    by_cases hc : avail.contains l
    · rw [show createMissing ops color (l :: rest) avail s =
          createMissing ops color rest avail s by
        simp only [createMissing, if_pos hc]] at h
      obtain ⟨h1, h2, h3, h4, h5, h6⟩ := ih avail s avail1 k ev s1 h
      exact ⟨h1, h2, h3, h4, h5, fun e he => by
        obtain ⟨n, ok, hne, hna, hnl⟩ := h6 e he
        exact ⟨n, ok, hne, hna, List.mem_cons_of_mem _ hnl⟩⟩
    · have hlm : l ∉ avail := fun hm => hc ((contains_iff_mem avail l).mpr hm)
      rcases hcall : ops.createLabel l color ("Auto-created label for " ++ l) s with ⟨r, sA⟩
      cases r with
      | ok u =>
        rcases hrec : createMissing ops color rest (avail ++ [l]) sA with ⟨availB, kB, evB, sB⟩
        rw [show createMissing ops color (l :: rest) avail s =
            (availB, kB + 1,
              GatewayEvent.createLabel l color ("Auto-created label for " ++ l) true :: evB,
              sB) by
          simp only [createMissing, if_neg hc, hcall, hrec]] at h
        injection h with h1 h2
        injection h2 with h2 h3
        injection h3 with h3 h4
        subst h1 h2 h3 h4
        obtain ⟨i1, i2, i3, i4, i5, i6⟩ := ih (avail ++ [l]) sA availB kB evB sB hrec
        have hcn : createdNames
            (GatewayEvent.createLabel l color ("Auto-created label for " ++ l) true :: evB) =
            l :: createdNames evB := by
          simp [createdNames, List.filterMap_cons]
        refine ⟨?_, ?_, ?_, ?_, ?_, ?_⟩
        · rw [hcn, i1]; simp
        · rw [hcn]; simp [i2, Nat.add_comm]
        · rw [hcn]
          refine List.nodup_cons.mpr ⟨fun hml => ?_, i3⟩
          exact i4 l hml (by simp)
        · rw [hcn]
          intro n hn
          rcases List.mem_cons.mp hn with rfl | hn2
          · exact hlm
          · exact fun hna => i4 n hn2 (List.mem_append_left _ hna)
        · simpa [applyEvents, List.filter_cons] using i5
        · intro e he
          rcases List.mem_cons.mp he with rfl | he2
          · exact ⟨l, true, rfl, hlm, by simp⟩
          · obtain ⟨n, ok, hne, hna, hnl⟩ := i6 e he2
            exact ⟨n, ok, hne, fun hm => hna (List.mem_append_left _ hm),
              List.mem_cons_of_mem _ hnl⟩
      | error msg =>
        rcases hrec : createMissing ops color rest avail sA with ⟨availB, kB, evB, sB⟩
        rw [show createMissing ops color (l :: rest) avail s =
            (availB, kB,
              GatewayEvent.createLabel l color ("Auto-created label for " ++ l) false :: evB,
              sB) by
          simp only [createMissing, if_neg hc, hcall, hrec]] at h
        injection h with h1 h2
        injection h2 with h2 h3
        injection h3 with h3 h4
        subst h1 h2 h3 h4
        obtain ⟨i1, i2, i3, i4, i5, i6⟩ := ih avail sA availB kB evB sB hrec
        have hcn : createdNames
            (GatewayEvent.createLabel l color ("Auto-created label for " ++ l) false :: evB) =
            createdNames evB := by
          simp [createdNames, List.filterMap_cons]
        refine ⟨by rw [hcn]; exact i1, by rw [hcn]; exact i2, by rw [hcn]; exact i3,
          by rw [hcn]; exact i4, by simpa [applyEvents, List.filter_cons] using i5, ?_⟩
        intro e he
        rcases List.mem_cons.mp he with rfl | he2
        · exact ⟨l, false, rfl, hlm, by simp⟩
        · obtain ⟨n, ok, hne, hna, hnl⟩ := i6 e he2
          exact ⟨n, ok, hne, hna, List.mem_cons_of_mem _ hnl⟩

@[simp] theorem createdNames_nil : createdNames [] = [] := rfl

@[simp] theorem applyEvents_nil : applyEvents [] = [] := rfl

@[simp] theorem createdNames_cons_labelIssue (n : Nat) (ls : List String) (evs : List GatewayEvent) :
    createdNames (GatewayEvent.labelIssue n ls :: evs) = createdNames evs := by
  simp [createdNames, List.filterMap_cons]

@[simp] theorem applyEvents_cons_labelIssue (n : Nat) (ls : List String) (evs : List GatewayEvent) :
    applyEvents (GatewayEvent.labelIssue n ls :: evs) =
      GatewayEvent.labelIssue n ls :: applyEvents evs := by
  simp [applyEvents, List.filter_cons]

/-- The `createMissingLabels`-gated creation step inside the issue loop;
when the flag is falsy nothing at all happens. -/
theorem createStep_spec (ops : GatewayOps σ) (cfg : AutoLabelConfig) (L avail : List String)
    (s : σ) (avail1 : List String) (created : Nat) (evC : List GatewayEvent) (s1 : σ)
    (h : (if truthy cfg.createMissingLabels then
            createMissing ops (colorOrDefault cfg.defaultLabelColor) L avail s
          else (avail, 0, [], s)) = (avail1, created, evC, s1)) :
    avail1 = avail ++ createdNames evC ∧
    created = (createdNames evC).length ∧
    (createdNames evC).Nodup ∧
    (∀ n ∈ createdNames evC, n ∉ avail) ∧
    applyEvents evC = [] ∧
    (∀ e ∈ evC, truthy cfg.createMissingLabels = true ∧ ∃ n ok,
      e = GatewayEvent.createLabel n (colorOrDefault cfg.defaultLabelColor)
        ("Auto-created label for " ++ n) ok ∧ n ∉ avail ∧ n ∈ L) := by
  by_cases hflag : truthy cfg.createMissingLabels
  · rw [if_pos hflag] at h
    obtain ⟨h1, h2, h3, h4, h5, h6⟩ := createMissing_spec ops _ L avail s avail1 created evC s1 h
    exact ⟨h1, h2, h3, h4, h5, fun e he => ⟨hflag, h6 e he⟩⟩
  · rw [if_neg hflag] at h
    injection h with h1 h2
    injection h2 with h2 h3
    injection h3 with h3 h4
    subst h1 h2 h3 h4
    simp

/-- The central specification of the issue loop: successfully created names
are fresh and distinct, every create call carries the defaulted color and
generated description, and a successful pass appends one details record per
label application, with the application events matching the details records
one for one, each applied set a nonempty deduplicated sub-selection of the
issue's matched labels, every applied name known at application time, and at
most one application per listed issue. -/
theorem processIssues_spec (ops : GatewayOps σ) (rules : List LabelingRule)
    (cfg : AutoLabelConfig) :
    ∀ (todo : List Issue) (avail : List String) (res : AutoLabelResult) (s : σ)
      (out : Except RunError AutoLabelResult) (ev : List GatewayEvent) (sF : σ),
      processIssues ops rules cfg todo avail res s = (out, ev, sF) →
      (createdNames ev).Nodup ∧
      (∀ n ∈ createdNames ev, n ∉ avail) ∧
      (∀ e ∈ ev, isCreateEvent e = true →
        truthy cfg.createMissingLabels = true ∧ ∃ n ok,
          e = GatewayEvent.createLabel n (colorOrDefault cfg.defaultLabelColor)
            ("Auto-created label for " ++ n) ok ∧ n ∉ avail) ∧
      (∀ r, out = Except.ok r → ∃ ds,
        r.totalIssues = res.totalIssues ∧
        r.details = res.details ++ ds ∧
        r.labeledIssues = res.labeledIssues + ds.length ∧
        r.labelsCreated = res.labelsCreated + (createdNames ev).length ∧
        applyEvents ev = ds.map detailEvent ∧
        List.Sublist (ds.map Detail.issueNumber) (todo.map Issue.number) ∧
        (∀ d ∈ ds, ∃ i, i ∈ todo ∧ d.issueNumber = i.number ∧ d.title = i.title ∧
          d.appliedLabels ≠ [] ∧
          List.Sublist d.appliedLabels (matchedLabels rules (issueText i)) ∧
          ∃ evA evB,
            ev = evA ++ GatewayEvent.labelIssue d.issueNumber d.appliedLabels :: evB ∧
            d.appliedLabels = (matchedLabels rules (issueText i)).filter
              (fun l => (avail ++ createdNames evA).contains l) ∧
            ∀ l ∈ d.appliedLabels, l ∈ avail ++ createdNames evA)) := by
  intro todo
  induction todo with
  | nil =>
    intro avail res s out ev sF h
    simp only [processIssues, Prod.mk.injEq] at h
    obtain ⟨rfl, rfl, rfl⟩ := h
    refine ⟨by simp, by simp, by simp, ?_⟩
    intro r hr
    injection hr with hr
    subst hr
    exact ⟨[], rfl, by simp, by simp, by simp, by simp [List.Sublist.refl], by simp⟩
  | cons issue rest ih =>
    intro avail res s out ev sF h
    by_cases hskip : (!truthy cfg.relabelExistingIssues && !issue.labels.isEmpty) = true
    · rw [show processIssues ops rules cfg (issue :: rest) avail res s =
          processIssues ops rules cfg rest avail res s by
        simp only [processIssues, if_pos hskip]] at h
      obtain ⟨i1, i2, i3, i4⟩ := ih avail res s out ev sF h
      refine ⟨i1, i2, i3, ?_⟩
      intro r hr
      obtain ⟨ds, j1, j2, j3, j4, j5, j6, j7⟩ := i4 r hr
      refine ⟨ds, j1, j2, j3, j4, j5, List.Sublist.cons _ j6, ?_⟩
      intro d hd
      obtain ⟨i, hi, k1, k2, k3, k4, k5⟩ := j7 d hd
      exact ⟨i, List.mem_cons_of_mem _ hi, k1, k2, k3, k4, k5⟩
    · rcases hcm : (if truthy cfg.createMissingLabels then
          createMissing ops (colorOrDefault cfg.defaultLabelColor)
            (matchedLabels rules (issueText issue)) avail s
        else (avail, 0, [], s)) with ⟨avail1, created, evC, s1⟩
      obtain ⟨c1, c2, c3, c4, c5, c6⟩ := createStep_spec ops cfg _ avail s avail1 created evC s1 hcm
      cases hfil : (matchedLabels rules (issueText issue)).filter (fun l => avail1.contains l) with
      | nil =>
        rcases hrec : processIssues ops rules cfg rest avail1
            { res with labelsCreated := res.labelsCreated + created } s1 with ⟨outR, evR, s2⟩
        rw [show processIssues ops rules cfg (issue :: rest) avail res s =
            (outR, evC ++ evR, s2) by
          simp only [processIssues, if_neg hskip, hcm, hfil, hrec]] at h
        injection h with h1 h2
        injection h2 with h2 h3
        subst h1 h2 h3
        obtain ⟨i1, i2, i3, i4⟩ := ih avail1 _ s1 outR evR s2 hrec
        have hcnev : createdNames (evC ++ evR) = createdNames evC ++ createdNames evR :=
          createdNames_append evC evR
        refine ⟨?_, ?_, ?_, ?_⟩
        · rw [hcnev]
          refine List.nodup_append.mpr ⟨c3, i1, ?_⟩
          intro n hn hn2
          exact i2 n hn2 (c1 ▸ List.mem_append_right avail hn)
        · rw [hcnev]
          intro n hn
          rcases List.mem_append.mp hn with hn1 | hn2
          · exact c4 n hn1
          · exact fun hna => i2 n hn2 (c1 ▸ List.mem_append_left _ hna)
        · intro e he hce
          rcases List.mem_append.mp he with he1 | he2
          · obtain ⟨hflag, n, ok, hne, hna, _⟩ := c6 e he1
            exact ⟨hflag, n, ok, hne, hna⟩
          · obtain ⟨hflag, n, ok, hne, hna⟩ := i3 e he2 hce
            exact ⟨hflag, n, ok, hne, fun hm => hna (c1 ▸ List.mem_append_left _ hm)⟩
        · intro r hr
          obtain ⟨ds, j1, j2, j3, j4, j5, j6, j7⟩ := i4 r hr
          refine ⟨ds, j1, j2, j3, ?_, ?_, List.Sublist.cons _ j6, ?_⟩
          · rw [hcnev, j4]
            simp [c2, List.length_append, Nat.add_assoc]
          · rw [applyEvents_append, c5, List.nil_append]
            exact j5
          · intro d hd
            obtain ⟨i, hi, k1, k2, k3, k4, evA, evB, k5, keq, k6⟩ := j7 d hd
            have hlist : avail1 ++ createdNames evA =
                avail ++ createdNames (evC ++ evA) := by
              rw [c1, createdNames_append, List.append_assoc]
            refine ⟨i, List.mem_cons_of_mem _ hi, k1, k2, k3, k4,
              evC ++ evA, evB, by rw [k5, List.append_assoc],
              by rw [keq, hlist], ?_⟩
            intro l hl
            have := k6 l hl
            rw [createdNames_append]
            rcases List.mem_append.mp this with h1 | h2
            · rw [c1] at h1
              rcases List.mem_append.mp h1 with h1a | h1b
              · exact List.mem_append_left _ h1a
              · exact List.mem_append_right _ (List.mem_append_left _ h1b)
            · exact List.mem_append_right _ (List.mem_append_right _ h2)
      | cons v vs =>
        rcases happly : ops.labelIssue issue.number (v :: vs) s1 with ⟨rA, s2⟩
        cases rA with
        | error msg =>
          rw [show processIssues ops rules cfg (issue :: rest) avail res s =
              (Except.error (RunError.gatewayError msg),
                evC ++ [GatewayEvent.labelIssue issue.number (v :: vs)], s2) by
            simp only [processIssues, if_neg hskip, hcm, hfil, happly]] at h
          injection h with h1 h2
          injection h2 with h2 h3
          subst h1 h2 h3
          have hcnev : createdNames (evC ++ [GatewayEvent.labelIssue issue.number (v :: vs)]) =
              createdNames evC := by
            rw [createdNames_append]; simp
          refine ⟨hcnev ▸ c3, hcnev ▸ c4, ?_, ?_⟩
          · intro e he hce
            rcases List.mem_append.mp he with he1 | he2
            · obtain ⟨hflag, n, ok, hne, hna, _⟩ := c6 e he1
              exact ⟨hflag, n, ok, hne, hna⟩
            · rcases List.mem_singleton.mp he2 with rfl
              simp [isCreateEvent] at hce
          · intro r hr
            exact absurd hr (by simp)
        | ok u =>
          rcases hrec : processIssues ops rules cfg rest avail1
              { totalIssues := res.totalIssues
                labeledIssues := res.labeledIssues + 1
                labelsCreated := res.labelsCreated + created
                details := res.details ++ [⟨issue.number, issue.title, v :: vs⟩] } s2 with
            ⟨outR, evR, s2'⟩
          rw [show processIssues ops rules cfg (issue :: rest) avail res s =
              (outR, evC ++ GatewayEvent.labelIssue issue.number (v :: vs) :: evR, s2') by
            simp only [processIssues, if_neg hskip, hcm, hfil, happly, hrec]] at h
          injection h with h1 h2
          injection h2 with h2 h3
          subst h1 h2 h3
          obtain ⟨i1, i2, i3, i4⟩ := ih avail1 _ s2 outR evR s2' hrec
          have hcnev : createdNames (evC ++ GatewayEvent.labelIssue issue.number (v :: vs) :: evR) =
              createdNames evC ++ createdNames evR := by
            rw [createdNames_append, createdNames_cons_labelIssue]
          refine ⟨?_, ?_, ?_, ?_⟩
          · rw [hcnev]
            refine List.nodup_append.mpr ⟨c3, i1, ?_⟩
            intro n hn hn2
            exact i2 n hn2 (c1 ▸ List.mem_append_right avail hn)
          · rw [hcnev]
            intro n hn
            rcases List.mem_append.mp hn with hn1 | hn2
            · exact c4 n hn1
            · exact fun hna => i2 n hn2 (c1 ▸ List.mem_append_left _ hna)
          · intro e he hce
            rcases List.mem_append.mp he with he1 | he2
            · obtain ⟨hflag, n, ok, hne, hna, _⟩ := c6 e he1
              exact ⟨hflag, n, ok, hne, hna⟩
            · rcases List.mem_cons.mp he2 with rfl | he3
              · simp [isCreateEvent] at hce
              · obtain ⟨hflag, n, ok, hne, hna⟩ := i3 e he3 hce
                exact ⟨hflag, n, ok, hne, fun hm => hna (c1 ▸ List.mem_append_left _ hm)⟩
          · intro r hr
            obtain ⟨ds, j1, j2, j3, j4, j5, j6, j7⟩ := i4 r hr
            refine ⟨⟨issue.number, issue.title, v :: vs⟩ :: ds, j1, ?_, ?_, ?_, ?_, ?_, ?_⟩
            · rw [j2]
              simp
            · rw [j3]
              simp [Nat.add_assoc, Nat.add_comm 1]
            · rw [j4, hcnev]
              simp [c2, List.length_append, Nat.add_assoc]
            · rw [applyEvents_append, c5, List.nil_append, applyEvents_cons_labelIssue, j5]
              rfl
            · exact List.Sublist.cons₂ _ j6
            · intro d hd
              rcases List.mem_cons.mp hd with rfl | hd2
              · refine ⟨issue, List.mem_cons_self _ _, rfl, rfl, by simp, ?_, evC, evR, rfl,
                  ?_, ?_⟩
                · exact hfil ▸ List.filter_sublist _
                · rw [← c1]
                  exact hfil.symm
                · intro l hl
                  have hlf : l ∈ (matchedLabels rules (issueText issue)).filter
                      (fun l => avail1.contains l) := hfil ▸ hl
                  have := List.of_mem_filter hlf
                  exact c1 ▸ (contains_iff_mem avail1 l).mp this
              · obtain ⟨i, hi, k1, k2, k3, k4, evA, evB, k5, keq, k6⟩ := j7 d hd2
                have hlist : avail1 ++ createdNames evA = avail ++ createdNames
                    (evC ++ GatewayEvent.labelIssue issue.number (v :: vs) :: evA) := by
                  rw [createdNames_append, createdNames_cons_labelIssue, c1,
                    List.append_assoc]
                refine ⟨i, List.mem_cons_of_mem _ hi, k1, k2, k3, k4,
                  evC ++ GatewayEvent.labelIssue issue.number (v :: vs) :: evA, evB, ?_,
                  by rw [keq, hlist], ?_⟩
                · rw [k5]
                  simp [List.append_assoc]
                · intro l hl
                  have := k6 l hl
                  rw [createdNames_append, createdNames_cons_labelIssue]
                  rcases List.mem_append.mp this with h1 | h2
                  · rw [c1] at h1
                    rcases List.mem_append.mp h1 with h1a | h1b
                    · exact List.mem_append_left _ h1a
                    · exact List.mem_append_right _ (List.mem_append_left _ h1b)
                  · exact List.mem_append_right _ (List.mem_append_right _ h2)

/-! ## Unfolding `run` -/

theorem run_eq_processIssues (ops : GatewayOps σ) (rules : List LabelingRule)
    (cfg : AutoLabelConfig) (s s1 s2 s3 : σ) (issues : List Issue) (labels : List Label)
    (out : Except RunError AutoLabelResult) (ev : List GatewayEvent)
    (hr : rules.isEmpty = false)
    (h1 : ops.getRepoIssues cfg.issueState s = (Except.ok issues, s1))
    (h2 : ops.getRepoLabels s1 = (Except.ok labels, s2))
    (h3 : processIssues ops rules cfg issues (labels.map Label.name)
      { totalIssues := issues.length, labeledIssues := 0, labelsCreated := 0, details := [] }
      s2 = (out, ev, s3)) :
    run ops rules cfg s =
      (out, GatewayEvent.fetchIssues cfg.issueState :: GatewayEvent.fetchLabels :: ev, s3) := by
  simp only [run, hr, Bool.false_eq_true, if_false, h1, h2, h3]

theorem run_fetchIssues_error (ops : GatewayOps σ) (rules : List LabelingRule)
    (cfg : AutoLabelConfig) (s s1 : σ) (m : String)
    (hr : rules.isEmpty = false)
    (h1 : ops.getRepoIssues cfg.issueState s = (Except.error m, s1)) :
    run ops rules cfg s =
      (Except.error (RunError.gatewayError m), [GatewayEvent.fetchIssues cfg.issueState], s1) := by
  simp only [run, hr, Bool.false_eq_true, if_false, h1]

theorem run_fetchLabels_error (ops : GatewayOps σ) (rules : List LabelingRule)
    (cfg : AutoLabelConfig) (s s1 s2 : σ) (issues : List Issue) (m : String)
    (hr : rules.isEmpty = false)
    (h1 : ops.getRepoIssues cfg.issueState s = (Except.ok issues, s1))
    (h2 : ops.getRepoLabels s1 = (Except.error m, s2)) :
    run ops rules cfg s =
      (Except.error (RunError.gatewayError m),
        [GatewayEvent.fetchIssues cfg.issueState, GatewayEvent.fetchLabels], s2) := by
  simp only [run, hr, Bool.false_eq_true, if_false, h1, h2]

/-! ## Apply-call outcomes (scripted gateway) -/

/-- Over the scripted gateway: a completed loop only ever issued successful
apply calls; a failed loop failed on its last event, an apply call whose
scripted outcome is exactly the propagated error, every earlier apply call
having succeeded; and the only error the loop itself produces is a propagated
gateway error. -/
theorem processIssues_apply_spec (iR : Except String (List Issue))
    (lR : Except String (List Label)) (cR : String → Except String Unit)
    (aR : Nat → List String → Except String Unit)
    (rules : List LabelingRule) (cfg : AutoLabelConfig) :
    ∀ (todo : List Issue) (avail : List String) (res : AutoLabelResult)
      (out : Except RunError AutoLabelResult) (ev : List GatewayEvent) (u : Unit),
      processIssues (scripted iR lR cR aR) rules cfg todo avail res () = (out, ev, u) →
      (∀ e, out = Except.error e → ∃ m, e = RunError.gatewayError m) ∧
      (∀ r, out = Except.ok r →
        ∀ n ls2, GatewayEvent.labelIssue n ls2 ∈ ev → aR n ls2 = Except.ok ()) ∧
      (∀ m, out = Except.error (RunError.gatewayError m) →
        ∃ evA n2 ls2, ev = evA ++ [GatewayEvent.labelIssue n2 ls2] ∧
          aR n2 ls2 = Except.error m ∧
          ∀ n3 ls3, GatewayEvent.labelIssue n3 ls3 ∈ evA → aR n3 ls3 = Except.ok ()) := by
  intro todo
  induction todo with
  | nil =>
    intro avail res out ev u h
    simp only [processIssues] at h
    injection h with h1 h2
    injection h2 with h2 h3
    subst h1 h2
    refine ⟨fun e he => by simp at he, fun r hr n ls2 hm => by simp at hm,
      fun m hm => by simp at hm⟩
  | cons issue rest ih =>
    intro avail res out ev u h
    by_cases hskip : (!truthy cfg.relabelExistingIssues && !issue.labels.isEmpty) = true
    · rw [show processIssues (scripted iR lR cR aR) rules cfg (issue :: rest) avail res () =
          processIssues (scripted iR lR cR aR) rules cfg rest avail res () by
        simp only [processIssues, if_pos hskip]] at h
      exact ih avail res out ev u h
    · rcases hcm : (if truthy cfg.createMissingLabels then
          createMissing (scripted iR lR cR aR) (colorOrDefault cfg.defaultLabelColor)
            (matchedLabels rules (issueText issue)) avail ()
        else (avail, 0, [], ())) with ⟨avail1, created, evC, s1⟩
      obtain ⟨_, _, _, _, c5, c6⟩ := createStep_spec _ cfg _ avail () avail1 created evC s1 hcm
      have hnoApplyC : ∀ n ls2, GatewayEvent.labelIssue n ls2 ∉ evC := by
        intro n ls2 hm
        obtain ⟨_, n2, ok, hne, _, _⟩ := c6 _ hm
        simp at hne
      cases hfil : (matchedLabels rules (issueText issue)).filter (fun l => avail1.contains l) with
      | nil =>
        rcases hrec : processIssues (scripted iR lR cR aR) rules cfg rest avail1
            { res with labelsCreated := res.labelsCreated + created } s1 with ⟨outR, evR, s2⟩
        rw [show processIssues (scripted iR lR cR aR) rules cfg (issue :: rest) avail res () =
            (outR, evC ++ evR, s2) by
          simp only [processIssues, if_neg hskip, hcm, hfil, hrec]] at h
        injection h with h1 h2
        injection h2 with h2 h3
        subst h1 h2 h3
        obtain ⟨i1, i2, i3⟩ := ih avail1 _ outR evR s2 (by rw [← hrec])
        refine ⟨i1, ?_, ?_⟩
        · intro r hr n ls2 hm
          rcases List.mem_append.mp hm with hm1 | hm2
          · exact absurd hm1 (hnoApplyC n ls2)
          · exact i2 r hr n ls2 hm2
        · intro m hm
          obtain ⟨evA, n2, ls2, j1, j2, j3⟩ := i3 m hm
          refine ⟨evC ++ evA, n2, ls2, by rw [j1, List.append_assoc], j2, ?_⟩
          intro n3 ls3 hm3
          rcases List.mem_append.mp hm3 with hm4 | hm5
          · exact absurd hm4 (hnoApplyC n3 ls3)
          · exact j3 n3 ls3 hm5
      | cons v vs =>
        rcases happly : (scripted iR lR cR aR).labelIssue issue.number (v :: vs) s1 with ⟨rA, s2⟩
        have haR : aR issue.number (v :: vs) = rA := by
          have : (scripted iR lR cR aR).labelIssue issue.number (v :: vs) s1 =
              (aR issue.number (v :: vs), s1) := rfl
          rw [this] at happly
          exact (Prod.mk.injEq .. ▸ happly).1
        cases rA with
        | error msg =>
          rw [show processIssues (scripted iR lR cR aR) rules cfg (issue :: rest) avail res () =
              (Except.error (RunError.gatewayError msg),
                evC ++ [GatewayEvent.labelIssue issue.number (v :: vs)], s2) by
            simp only [processIssues, if_neg hskip, hcm, hfil, happly]] at h
          injection h with h1 h2
          injection h2 with h2 h3
          subst h1 h2 h3
          refine ⟨fun e he => ⟨msg, by injection he with he; rw [← he]⟩,
            fun r hr => by simp at hr, ?_⟩
          intro m hm
          injection hm with hm
          injection hm with hm
          subst hm
          exact ⟨evC, issue.number, v :: vs, rfl, haR, fun n3 ls3 hm3 =>
            absurd hm3 (hnoApplyC n3 ls3)⟩
        | ok uu =>
          rcases hrec : processIssues (scripted iR lR cR aR) rules cfg rest avail1
              { totalIssues := res.totalIssues
                labeledIssues := res.labeledIssues + 1
                labelsCreated := res.labelsCreated + created
                details := res.details ++ [⟨issue.number, issue.title, v :: vs⟩] } s2 with
            ⟨outR, evR, s2'⟩
          rw [show processIssues (scripted iR lR cR aR) rules cfg (issue :: rest) avail res () =
              (outR, evC ++ GatewayEvent.labelIssue issue.number (v :: vs) :: evR, s2') by
            simp only [processIssues, if_neg hskip, hcm, hfil, happly, hrec]] at h
          injection h with h1 h2
          injection h2 with h2 h3
          subst h1 h2 h3
          obtain ⟨i1, i2, i3⟩ := ih avail1 _ outR evR s2' (by rw [← hrec])
          refine ⟨i1, ?_, ?_⟩
          · intro r hr n ls2 hm
            rcases List.mem_append.mp hm with hm1 | hm2
            · exact absurd hm1 (hnoApplyC n ls2)
            · rcases List.mem_cons.mp hm2 with heq | hm3
              · injection heq with e1 e2
                subst e1 e2
                rw [haR]
              · exact i2 r hr n ls2 hm3
          · intro m hm
            obtain ⟨evA, n2, ls2, j1, j2, j3⟩ := i3 m hm
            refine ⟨evC ++ GatewayEvent.labelIssue issue.number (v :: vs) :: evA, n2, ls2,
              by rw [j1]; simp [List.append_assoc], j2, ?_⟩
            intro n3 ls3 hm3
            rcases List.mem_append.mp hm3 with hm4 | hm5
            · exact absurd hm4 (hnoApplyC n3 ls3)
            · rcases List.mem_cons.mp hm5 with heq | hm6
              · injection heq with e1 e2
                subst e1 e2
                rw [haR]
              · exact j3 n3 ls3 hm6

@[simp] theorem createdNames_cons_fetchIssues (st : Option IssueState) (evs : List GatewayEvent) :
    createdNames (GatewayEvent.fetchIssues st :: evs) = createdNames evs := by
  simp [createdNames, List.filterMap_cons]

@[simp] theorem createdNames_cons_fetchLabels (evs : List GatewayEvent) :
    createdNames (GatewayEvent.fetchLabels :: evs) = createdNames evs := by
  simp [createdNames, List.filterMap_cons]

@[simp] theorem createdNames_cons_create_true (n c d : String) (evs : List GatewayEvent) :
    createdNames (GatewayEvent.createLabel n c d true :: evs) = n :: createdNames evs := by
  simp [createdNames, List.filterMap_cons]

@[simp] theorem createdNames_cons_create_false (n c d : String) (evs : List GatewayEvent) :
    createdNames (GatewayEvent.createLabel n c d false :: evs) = createdNames evs := by
  simp [createdNames, List.filterMap_cons]

@[simp] theorem applyEvents_cons_fetchIssues (st : Option IssueState) (evs : List GatewayEvent) :
    applyEvents (GatewayEvent.fetchIssues st :: evs) = applyEvents evs := by
  simp [applyEvents, List.filter_cons]

@[simp] theorem applyEvents_cons_fetchLabels (evs : List GatewayEvent) :
    applyEvents (GatewayEvent.fetchLabels :: evs) = applyEvents evs := by
  simp [applyEvents, List.filter_cons]

@[simp] theorem applyEvents_cons_create (n c d : String) (ok : Bool) (evs : List GatewayEvent) :
    applyEvents (GatewayEvent.createLabel n c d ok :: evs) = applyEvents evs := by
  simp [applyEvents, List.filter_cons]

theorem applyEvents_eq_nil_iff (ev : List GatewayEvent) :
    applyEvents ev = [] ↔ ∀ n ls, GatewayEvent.labelIssue n ls ∉ ev := by
  induction ev with
  | nil => simp
  | cons e evs ih =>
    cases e with
    | fetchIssues st =>
      simp only [applyEvents_cons_fetchIssues, ih]
      constructor
      · intro h n ls hm
        rcases List.mem_cons.mp hm with heq | hm2
        · exact absurd heq (by simp)
        · exact h n ls hm2
      · intro h n ls hm
        exact h n ls (List.mem_cons_of_mem _ hm)
    | fetchLabels =>
      simp only [applyEvents_cons_fetchLabels, ih]
      constructor
      · intro h n ls hm
        rcases List.mem_cons.mp hm with heq | hm2
        · exact absurd heq (by simp)
        · exact h n ls hm2
      · intro h n ls hm
        exact h n ls (List.mem_cons_of_mem _ hm)
    | createLabel n c d ok =>
      simp only [applyEvents_cons_create, ih]
      constructor
      · intro h n2 ls hm
        rcases List.mem_cons.mp hm with heq | hm2
        · exact absurd heq (by simp)
        · exact h n2 ls hm2
      · intro h n2 ls hm
        exact h n2 ls (List.mem_cons_of_mem _ hm)
    | labelIssue n ls =>
      simp only [applyEvents_cons_labelIssue]
      constructor
      · intro h
        exact absurd h (by simp)
      · intro h
        exact absurd (List.mem_cons_self _ _) (h n ls)

/-- Membership in `createdNames` comes from a successful create event. -/
theorem mem_createdNames (ev : List GatewayEvent) (n : String) :
    n ∈ createdNames ev ↔ ∃ c d, GatewayEvent.createLabel n c d true ∈ ev := by
  induction ev with
  | nil => simp
  | cons e evs ih =>
    cases e with
    | fetchIssues st =>
      simp only [createdNames_cons_fetchIssues, ih]
      constructor
      · rintro ⟨c, d, hm⟩
        exact ⟨c, d, List.mem_cons_of_mem _ hm⟩
      · rintro ⟨c, d, hm⟩
        rcases List.mem_cons.mp hm with heq | hm2
        · exact absurd heq (by simp)
        · exact ⟨c, d, hm2⟩
    | fetchLabels =>
      simp only [createdNames_cons_fetchLabels, ih]
      constructor
      · rintro ⟨c, d, hm⟩
        exact ⟨c, d, List.mem_cons_of_mem _ hm⟩
      · rintro ⟨c, d, hm⟩
        rcases List.mem_cons.mp hm with heq | hm2
        · exact absurd heq (by simp)
        · exact ⟨c, d, hm2⟩
    | labelIssue n2 ls =>
      simp only [createdNames_cons_labelIssue, ih]
      constructor
      · rintro ⟨c, d, hm⟩
        exact ⟨c, d, List.mem_cons_of_mem _ hm⟩
      · rintro ⟨c, d, hm⟩
        rcases List.mem_cons.mp hm with heq | hm2
        · exact absurd heq (by simp)
        · exact ⟨c, d, hm2⟩
    | createLabel n2 c2 d2 ok =>
      cases ok with
      | true =>
        simp only [createdNames_cons_create_true]
        constructor
        · intro hm
          rcases List.mem_cons.mp hm with rfl | hm2
          · exact ⟨c2, d2, List.mem_cons_self _ _⟩
          · obtain ⟨c, d, hm3⟩ := ih.mp hm2
            exact ⟨c, d, List.mem_cons_of_mem _ hm3⟩
        · rintro ⟨c, d, hm⟩
          rcases List.mem_cons.mp hm with heq | hm2
          · injection heq with e1 e2 e3 e4
            exact e1 ▸ List.mem_cons_self _ _
          · exact List.mem_cons_of_mem _ (ih.mpr ⟨c, d, hm2⟩)
      | false =>
        simp only [createdNames_cons_create_false, ih]
        constructor
        · rintro ⟨c, d, hm⟩
          exact ⟨c, d, List.mem_cons_of_mem _ hm⟩
        · rintro ⟨c, d, hm⟩
          rcases List.mem_cons.mp hm with heq | hm2
          · exact absurd heq (by simp)
          · exact ⟨c, d, hm2⟩

/-- Over the scripted gateway the recorded success flag of each create event
is exactly the scripted outcome for that label name. -/
theorem createMissing_flag (iR : Except String (List Issue)) (lR : Except String (List Label))
    (cR : String → Except String Unit) (aR : Nat → List String → Except String Unit)
    (color : String) :
    ∀ (ls avail : List String) (u0 : Unit) (avail1 : List String) (k : Nat)
      (ev : List GatewayEvent) (u1 : Unit),
      createMissing (scripted iR lR cR aR) color ls avail u0 = (avail1, k, ev, u1) →
      ∀ n c d ok, GatewayEvent.createLabel n c d ok ∈ ev →
        (ok = true ↔ cR n = Except.ok ()) := by
  intro ls
  induction ls with
  | nil =>
    intro avail u0 avail1 k ev u1 h
    simp only [createMissing] at h
    injection h with h1 h2
    injection h2 with h2 h3
    injection h3 with h3 h4
    subst h2 h3
    intro n c d ok hm
    simp at hm
  | cons l rest ih =>
    intro avail u0 avail1 k ev u1 h
    by_cases hc : avail.contains l
    · rw [show createMissing (scripted iR lR cR aR) color (l :: rest) avail u0 =
          createMissing (scripted iR lR cR aR) color rest avail u0 by
        simp only [createMissing, if_pos hc]] at h
      exact ih avail u0 avail1 k ev u1 h
    · have hcall : (scripted iR lR cR aR).createLabel l color
          ("Auto-created label for " ++ l) u0 = (cR l, u0) := rfl
      cases hcr : cR l with
      | ok uu =>
        rcases hrec : createMissing (scripted iR lR cR aR) color rest (avail ++ [l]) u0 with
          ⟨availB, kB, evB, uB⟩
        rw [show createMissing (scripted iR lR cR aR) color (l :: rest) avail u0 =
            (availB, kB + 1,
              GatewayEvent.createLabel l color ("Auto-created label for " ++ l) true :: evB,
              uB) by
          simp only [createMissing, if_neg hc, hcall, hcr, hrec]] at h
        injection h with h1 h2
        injection h2 with h2 h3
        injection h3 with h3 h4
        subst h2 h3
        intro n c d ok hm
        rcases List.mem_cons.mp hm with heq | hm2
        · injection heq with e1 e2 e3 e4
          subst e1 e4
          rw [hcr]
          cases uu
          simp
        · exact ih (avail ++ [l]) u0 availB kB evB uB hrec n c d ok hm2
      | error msg =>
        rcases hrec : createMissing (scripted iR lR cR aR) color rest avail u0 with
          ⟨availB, kB, evB, uB⟩
        rw [show createMissing (scripted iR lR cR aR) color (l :: rest) avail u0 =
            (availB, kB,
              GatewayEvent.createLabel l color ("Auto-created label for " ++ l) false :: evB,
              uB) by
          simp only [createMissing, if_neg hc, hcall, hcr, hrec]] at h
        injection h with h1 h2
        injection h2 with h2 h3
        injection h3 with h3 h4
        subst h2 h3
        intro n c d ok hm
        rcases List.mem_cons.mp hm with heq | hm2
        · injection heq with e1 e2 e3 e4
          subst e1 e4
          rw [hcr]
          simp
        · exact ih avail u0 availB kB evB uB hrec n c d ok hm2

/-- Lift of `createMissing_flag` to the whole issue loop. -/
theorem processIssues_create_flag (iR : Except String (List Issue))
    (lR : Except String (List Label)) (cR : String → Except String Unit)
    (aR : Nat → List String → Except String Unit)
    (rules : List LabelingRule) (cfg : AutoLabelConfig) :
    ∀ (todo : List Issue) (avail : List String) (res : AutoLabelResult)
      (out : Except RunError AutoLabelResult) (ev : List GatewayEvent) (u : Unit),
      processIssues (scripted iR lR cR aR) rules cfg todo avail res () = (out, ev, u) →
      ∀ n c d ok, GatewayEvent.createLabel n c d ok ∈ ev →
        (ok = true ↔ cR n = Except.ok ()) := by
  intro todo
  induction todo with
  | nil =>
    intro avail res out ev u h
    simp only [processIssues] at h
    injection h with h1 h2
    injection h2 with h2 h3
    subst h2
    intro n c d ok hm
    simp at hm
  | cons issue rest ih =>
    intro avail res out ev u h
    by_cases hskip : (!truthy cfg.relabelExistingIssues && !issue.labels.isEmpty) = true
    · rw [show processIssues (scripted iR lR cR aR) rules cfg (issue :: rest) avail res () =
          processIssues (scripted iR lR cR aR) rules cfg rest avail res () by
        simp only [processIssues, if_pos hskip]] at h
      exact ih avail res out ev u h
    · rcases hcm : (if truthy cfg.createMissingLabels then
          createMissing (scripted iR lR cR aR) (colorOrDefault cfg.defaultLabelColor)
            (matchedLabels rules (issueText issue)) avail ()
        else (avail, 0, [], ())) with ⟨avail1, created, evC, s1⟩
      have hflagC : ∀ n c d ok, GatewayEvent.createLabel n c d ok ∈ evC →
          (ok = true ↔ cR n = Except.ok ()) := by
        by_cases hflag : truthy cfg.createMissingLabels
        · rw [if_pos hflag] at hcm
          exact fun n c d ok hm =>
            createMissing_flag iR lR cR aR _ _ avail () avail1 created evC s1 hcm n c d ok hm
        · rw [if_neg hflag] at hcm
          injection hcm with h1 h2
          injection h2 with h2 h3
          injection h3 with h3 h4
          subst h3
          intro n c d ok hm
          simp at hm
      cases hfil : (matchedLabels rules (issueText issue)).filter (fun l => avail1.contains l) with
      | nil =>
        rcases hrec : processIssues (scripted iR lR cR aR) rules cfg rest avail1
            { res with labelsCreated := res.labelsCreated + created } s1 with ⟨outR, evR, s2⟩
        rw [show processIssues (scripted iR lR cR aR) rules cfg (issue :: rest) avail res () =
            (outR, evC ++ evR, s2) by
          simp only [processIssues, if_neg hskip, hcm, hfil, hrec]] at h
        injection h with h1 h2
        injection h2 with h2 h3
        subst h2
        intro n c d ok hm
        rcases List.mem_append.mp hm with hm1 | hm2
        · exact hflagC n c d ok hm1
        · exact ih avail1 _ outR evR s2 (by rw [← hrec]) n c d ok hm2
      | cons v vs =>
        rcases happly : (scripted iR lR cR aR).labelIssue issue.number (v :: vs) s1 with ⟨rA, s2⟩
        cases rA with
        | error msg =>
          rw [show processIssues (scripted iR lR cR aR) rules cfg (issue :: rest) avail res () =
              (Except.error (RunError.gatewayError msg),
                evC ++ [GatewayEvent.labelIssue issue.number (v :: vs)], s2) by
            simp only [processIssues, if_neg hskip, hcm, hfil, happly]] at h
          injection h with h1 h2
          injection h2 with h2 h3
          subst h2
          intro n c d ok hm
          rcases List.mem_append.mp hm with hm1 | hm2
          · exact hflagC n c d ok hm1
          · rcases List.mem_singleton.mp hm2 with heq
            exact absurd heq (by simp)
        | ok uu =>
          rcases hrec : processIssues (scripted iR lR cR aR) rules cfg rest avail1
              { totalIssues := res.totalIssues
                labeledIssues := res.labeledIssues + 1
                labelsCreated := res.labelsCreated + created
                details := res.details ++ [⟨issue.number, issue.title, v :: vs⟩] } s2 with
            ⟨outR, evR, s2'⟩
          rw [show processIssues (scripted iR lR cR aR) rules cfg (issue :: rest) avail res () =
              (outR, evC ++ GatewayEvent.labelIssue issue.number (v :: vs) :: evR, s2') by
            simp only [processIssues, if_neg hskip, hcm, hfil, happly, hrec]] at h
          injection h with h1 h2
          injection h2 with h2 h3
          subst h2
          intro n c d ok hm
          rcases List.mem_append.mp hm with hm1 | hm2
          · exact hflagC n c d ok hm1
          · rcases List.mem_cons.mp hm2 with heq | hm3
            · exact absurd heq (by simp)
            · exact ih avail1 _ outR evR s2' (by rw [← hrec]) n c d ok hm3

theorem isEmpty_false_of_ne_nil {α : Type} {l : List α} (h : l ≠ []) : l.isEmpty = false := by
  cases l with
  | nil => exact absurd rfl h
  | cons a l2 => rfl

/-- A scripted run with both fetches succeeding is the issue loop plus the two
fetch events. -/
theorem run_scripted_spec (is : List Issue) (ls : List Label)
    (cR : String → Except String Unit) (aR : Nat → List String → Except String Unit)
    (rules : List LabelingRule) (cfg : AutoLabelConfig) (hrules : rules ≠ []) :
    ∃ out ev u,
      processIssues (scripted (Except.ok is) (Except.ok ls) cR aR) rules cfg is
        (ls.map Label.name)
        { totalIssues := is.length, labeledIssues := 0, labelsCreated := 0, details := [] }
        () = (out, ev, u) ∧
      run (scripted (Except.ok is) (Except.ok ls) cR aR) rules cfg () =
        (out, GatewayEvent.fetchIssues cfg.issueState :: GatewayEvent.fetchLabels :: ev, u) := by
  rcases h : processIssues (scripted (Except.ok is) (Except.ok ls) cR aR) rules cfg is
      (ls.map Label.name)
      { totalIssues := is.length, labeledIssues := 0, labelsCreated := 0, details := [] }
      () with ⟨out, ev, u⟩
  exact ⟨out, ev, u, rfl,
    run_eq_processIssues _ rules cfg () () () u is ls out ev
      (isEmpty_false_of_ne_nil hrules) rfl rfl h⟩

/-- Claim C1: an engine with an empty rule list always fails with the
no-rules-configured error, before any gateway operation: the trace is empty
and the gateway state is untouched, for every configuration and gateway. -/
theorem c1_empty_rules_always_fails {σ : Type} (ops : GatewayOps σ)
    (cfg : AutoLabelConfig) (s : σ) :
    run ops [] cfg s = (Except.error RunError.noRulesConfigured, [], s) := by
  simp [run]

/-- Claim C8: construction without overrides yields exactly the defaults
(`createMissingLabels = false`, `defaultLabelColor = "0075ca"`,
`relabelExistingIssues = true`, `issueState = open`) and an empty rule list;
construction with overrides merges each supplied field onto these defaults;
and `setConfig` shallow-merges: a field present in the patch takes the patch's
value, a field absent from the patch keeps its prior value. -/
theorem c8_config_defaults_and_merge :
    ((newAutoLabeler emptyPatch).rules = [] ∧
     (newAutoLabeler emptyPatch).config =
       { createMissingLabels := some false, defaultLabelColor := some "0075ca",
         relabelExistingIssues := some true, issueState := some IssueState.opened }) ∧
    (∀ p : AutoLabelConfigPatch,
      (newAutoLabeler p).rules = [] ∧
      (p.createMissingLabels = none →
        (newAutoLabeler p).config.createMissingLabels = some false) ∧
      (∀ v, p.createMissingLabels = some v → (newAutoLabeler p).config.createMissingLabels = v) ∧
      (p.defaultLabelColor = none →
        (newAutoLabeler p).config.defaultLabelColor = some "0075ca") ∧
      (∀ v, p.defaultLabelColor = some v → (newAutoLabeler p).config.defaultLabelColor = v) ∧
      (p.relabelExistingIssues = none →
        (newAutoLabeler p).config.relabelExistingIssues = some true) ∧
      (∀ v, p.relabelExistingIssues = some v →
        (newAutoLabeler p).config.relabelExistingIssues = v) ∧
      (p.issueState = none → (newAutoLabeler p).config.issueState = some IssueState.opened) ∧
      (∀ v, p.issueState = some v → (newAutoLabeler p).config.issueState = v)) ∧
    (∀ (e : GitHubAutoLabeler) (p : AutoLabelConfigPatch),
      (e.setConfig p).rules = e.rules ∧
      (p.createMissingLabels = none →
        (e.setConfig p).config.createMissingLabels = e.config.createMissingLabels) ∧
      (∀ v, p.createMissingLabels = some v → (e.setConfig p).config.createMissingLabels = v) ∧
      (p.defaultLabelColor = none →
        (e.setConfig p).config.defaultLabelColor = e.config.defaultLabelColor) ∧
      (∀ v, p.defaultLabelColor = some v → (e.setConfig p).config.defaultLabelColor = v) ∧
      (p.relabelExistingIssues = none →
        (e.setConfig p).config.relabelExistingIssues = e.config.relabelExistingIssues) ∧
      (∀ v, p.relabelExistingIssues = some v →
        (e.setConfig p).config.relabelExistingIssues = v) ∧
      (p.issueState = none → (e.setConfig p).config.issueState = e.config.issueState) ∧
      (∀ v, p.issueState = some v → (e.setConfig p).config.issueState = v)) := by
  refine ⟨⟨rfl, rfl⟩, ?_, ?_⟩
  · intro p
    refine ⟨rfl, ?_, ?_, ?_, ?_, ?_, ?_, ?_, ?_⟩ <;>
      first
        | (intro h; simp [newAutoLabeler, mergeConfig, DEFAULT_CONFIG, h])
        | (intro v h; simp [newAutoLabeler, mergeConfig, DEFAULT_CONFIG, h])
  · intro e p
    refine ⟨rfl, ?_, ?_, ?_, ?_, ?_, ?_, ?_, ?_⟩ <;>
      first
        | (intro h; simp [GitHubAutoLabeler.setConfig, mergeConfig, h])
        | (intro v h; simp [GitHubAutoLabeler.setConfig, mergeConfig, h])

/-- Witness for C8 at concrete patches: an override (including an explicit
`undefined`) replaces the field, an absent field keeps the default or prior
value. -/
theorem c8_config_defaults_and_merge_witness :
    (newAutoLabeler ⟨some (some true), some none, none, none⟩).config.createMissingLabels =
      some true ∧
    (newAutoLabeler ⟨some (some true), some none, none, none⟩).config.defaultLabelColor = none ∧
    (newAutoLabeler ⟨some (some true), some none, none, none⟩).config.issueState =
      some IssueState.opened ∧
    ((newAutoLabeler emptyPatch).setConfig
      ⟨none, none, some (some false), none⟩).config.relabelExistingIssues = some false ∧
    ((newAutoLabeler emptyPatch).setConfig
      ⟨none, none, some (some false), none⟩).config.defaultLabelColor =
      (newAutoLabeler emptyPatch).config.defaultLabelColor := by
  obtain ⟨hA, hB, hC⟩ := c8_config_defaults_and_merge
  obtain ⟨b1, b2, b3, b4, b5, b6, b7, b8, b9⟩ := hB ⟨some (some true), some none, none, none⟩
  obtain ⟨d1, d2, d3, d4, d5, d6, d7, d8, d9⟩ :=
    hC (newAutoLabeler emptyPatch) ⟨none, none, some (some false), none⟩
  exact ⟨b3 (some true) rfl, b5 none rfl, b8 rfl, d7 (some false) rfl, d4 rfl⟩

/-- Claim C10: when `defaultLabelColor` is `undefined` or the empty string,
every label-creation call the engine makes still carries the color
`"0075ca"` — the `|| '0075ca'` fallback never lets a missing color reach the
gateway. -/
theorem c10_create_color_never_missing {σ : Type} (ops : GatewayOps σ)
    (rules : List LabelingRule) (cfg : AutoLabelConfig) (s : σ)
    (_hflag : truthy cfg.createMissingLabels = true)
    (hcolor : cfg.defaultLabelColor = none ∨ cfg.defaultLabelColor = some "") :
    ∀ n c d ok, GatewayEvent.createLabel n c d ok ∈ (run ops rules cfg s).2.1 →
      c = "0075ca" := by
  intro n c d ok hm
  have hform : c = colorOrDefault cfg.defaultLabelColor := by
    by_cases hre : rules.isEmpty = true
    · rw [show run ops rules cfg s = (Except.error RunError.noRulesConfigured, [], s) by
        simp only [run, if_pos hre]] at hm
      simp at hm
    · have hre2 : rules.isEmpty = false := by
        cases h2 : rules.isEmpty
        · rfl
        · exact absurd h2 hre
      rcases h1 : ops.getRepoIssues cfg.issueState s with ⟨r1, s1⟩
      cases r1 with
      | error m =>
        rw [run_fetchIssues_error ops rules cfg s s1 m hre2 h1] at hm
        simp at hm
      | ok issues =>
        rcases h2 : ops.getRepoLabels s1 with ⟨r2, s2⟩
        cases r2 with
        | error m =>
          rw [run_fetchLabels_error ops rules cfg s s1 s2 issues m hre2 h1 h2] at hm
          simp at hm
        | ok labels =>
          rcases h3 : processIssues ops rules cfg issues (labels.map Label.name)
              { totalIssues := issues.length, labeledIssues := 0, labelsCreated := 0,
                details := [] } s2 with ⟨out, ev, s3⟩
          rw [run_eq_processIssues ops rules cfg s s1 s2 s3 issues labels out ev
            hre2 h1 h2 h3] at hm
          obtain ⟨-, -, i3, -⟩ :=
            processIssues_spec ops rules cfg issues (labels.map Label.name) _ s2 out ev s3 h3
          rcases List.mem_cons.mp hm with heq | hm2
          · exact absurd heq (by simp)
          · rcases List.mem_cons.mp hm2 with heq | hm3
            · exact absurd heq (by simp)
            · obtain ⟨-, n2, ok2, hne, -⟩ := i3 _ hm3 (by simp [isCreateEvent])
              simp only [GatewayEvent.createLabel.injEq] at hne
              exact hne.2.1
  rcases hcolor with hc | hc
  · rw [hform, hc]
    rfl
  · rw [hform, hc]
    rfl

/-- Witness for C10: a configuration with `createMissingLabels = true` and an
`undefined` color, over a scripted gateway with one matching unlabeled issue:
the creation call that run makes carries the fallback color. -/
theorem c10_create_color_never_missing_witness :
    GatewayEvent.createLabel "x" "0075ca" "Auto-created label for x" true ∈
      (run (scripted (Except.ok [⟨1, "t", none, []⟩]) (Except.ok [])
        (fun _ => Except.ok ()) (fun _ _ => Except.ok ()))
        [⟨fun _ => true, ["x"], none⟩]
        ⟨some true, none, some true, none⟩ ()).2.1 ∧
    "0075ca" = "0075ca" :=
  ⟨by decide,
    c10_create_color_never_missing
      (scripted (Except.ok [⟨1, "t", none, []⟩]) (Except.ok [])
        (fun _ => Except.ok ()) (fun _ _ => Except.ok ()))
      [⟨fun _ => true, ["x"], none⟩]
      ⟨some true, none, some true, none⟩ () rfl (Or.inl rfl)
      "x" "0075ca" "Auto-created label for x" true (by decide)⟩

/-- Claim C3: every successful run has as many details records as labeled
issues, and each details record corresponds to an application event in the
trace all of whose label names were known at that point — fetched with the
repository's labels or created earlier in the run. -/
theorem c3_details_invariant (is : List Issue) (ls : List Label)
    (cR : String → Except String Unit) (aR : Nat → List String → Except String Unit)
    (rules : List LabelingRule) (cfg : AutoLabelConfig) :
    ∀ r, (run (scripted (Except.ok is) (Except.ok ls) cR aR) rules cfg ()).1 = Except.ok r →
      r.details.length = r.labeledIssues ∧
      ∀ d ∈ r.details, ∃ evA evB,
        (run (scripted (Except.ok is) (Except.ok ls) cR aR) rules cfg ()).2.1 =
          evA ++ GatewayEvent.labelIssue d.issueNumber d.appliedLabels :: evB ∧
        ∀ l ∈ d.appliedLabels, l ∈ ls.map Label.name ++ createdNames evA := by
  intro r hr
  by_cases hrules : rules = []
  · rw [show run (scripted (Except.ok is) (Except.ok ls) cR aR) rules cfg () =
        (Except.error RunError.noRulesConfigured, [], ()) by
      subst hrules
      simp [run]] at hr
    simp at hr
  · obtain ⟨out, ev, u, hPI, hRun⟩ := run_scripted_spec is ls cR aR rules cfg hrules
    obtain ⟨i1, i2, i3, i4⟩ :=
      processIssues_spec _ rules cfg is (ls.map Label.name) _ () out ev u hPI
    rw [hRun] at hr ⊢
    obtain ⟨ds, j1, j2, j3, j4, j5, j6, j7⟩ := i4 r hr
    constructor
    · rw [j2, j3]
      simp
    · intro d hd
      rw [j2, List.nil_append] at hd
      obtain ⟨i, hi, k1, k2, k3, k4, evA, evB, k5, -, k6⟩ := j7 d hd
      refine ⟨GatewayEvent.fetchIssues cfg.issueState :: GatewayEvent.fetchLabels :: evA,
        evB, ?_, ?_⟩
      · rw [k5]
        rfl
      · intro l hl
        simpa using k6 l hl

/-- Claim C6: label-creation failures are non-fatal.  Over a gateway whose
fetches and applications succeed but whose creations may fail arbitrarily,
the run always returns a complete result; `labelsCreated` counts only the
successful creations; and a label whose creation fails is never counted as
created and appears in an issue's applied set only if it already existed in
the repository. -/
theorem c6_create_failure_nonfatal (is : List Issue) (ls : List Label)
    (cR : String → Except String Unit) (rules : List LabelingRule) (cfg : AutoLabelConfig)
    (hrules : rules ≠ []) :
    (∃ r, (run (scripted (Except.ok is) (Except.ok ls) cR (fun _ _ => Except.ok ()))
      rules cfg ()).1 = Except.ok r) ∧
    (∀ r, (run (scripted (Except.ok is) (Except.ok ls) cR (fun _ _ => Except.ok ()))
        rules cfg ()).1 = Except.ok r →
      r.labelsCreated = (createdNames (run (scripted (Except.ok is) (Except.ok ls) cR
        (fun _ _ => Except.ok ())) rules cfg ()).2.1).length ∧
      ∀ d ∈ r.details, ∀ l ∈ d.appliedLabels,
        l ∈ ls.map Label.name ++ createdNames (run (scripted (Except.ok is) (Except.ok ls)
          cR (fun _ _ => Except.ok ())) rules cfg ()).2.1) ∧
    (∀ n m, cR n = Except.error m →
      n ∉ createdNames (run (scripted (Except.ok is) (Except.ok ls) cR
        (fun _ _ => Except.ok ())) rules cfg ()).2.1 ∧
      (∀ r, (run (scripted (Except.ok is) (Except.ok ls) cR (fun _ _ => Except.ok ()))
          rules cfg ()).1 = Except.ok r →
        ∀ d ∈ r.details, n ∈ d.appliedLabels → n ∈ ls.map Label.name)) := by
  obtain ⟨out, ev, u, hPI, hRun⟩ :=
    run_scripted_spec is ls cR (fun _ _ => Except.ok ()) rules cfg hrules
  obtain ⟨i1, i2, i3, i4⟩ :=
    processIssues_spec _ rules cfg is (ls.map Label.name) _ () out ev u hPI
  obtain ⟨a1, a2, a3⟩ :=
    processIssues_apply_spec (Except.ok is) (Except.ok ls) cR (fun _ _ => Except.ok ())
      rules cfg is (ls.map Label.name) _ out ev u hPI
  have hflagIff := processIssues_create_flag (Except.ok is) (Except.ok ls) cR
    (fun _ _ => Except.ok ()) rules cfg is (ls.map Label.name) _ out ev u hPI
  have hnotCreated : ∀ n m, cR n = Except.error m → n ∉ createdNames ev := by
    intro n m hcrn hmem
    obtain ⟨c, dd, hmemev⟩ := (mem_createdNames ev n).mp hmem
    have := (hflagIff n c dd true hmemev).mp rfl
    rw [hcrn] at this
    exact absurd this (by simp)
  rw [hRun]
  refine ⟨?_, ?_, ?_⟩
  · cases hout : out with
    | ok r => exact ⟨r, rfl⟩
    | error e =>
      obtain ⟨m, rfl⟩ := a1 e hout
      obtain ⟨evA, n2, ls2, -, hfail, -⟩ := a3 m hout
      exact absurd hfail (by simp)
  · intro r hr
    obtain ⟨ds, j1, j2, j3, j4, j5, j6, j7⟩ := i4 r hr
    refine ⟨by simpa using j4, ?_⟩
    intro d hd l hl
    rw [j2, List.nil_append] at hd
    obtain ⟨i, hi, k1, k2, k3, k4, evA, evB, k5, -, k6⟩ := j7 d hd
    rcases List.mem_append.mp (k6 l hl) with h1 | h2
    · exact List.mem_append_left _ h1
    · refine List.mem_append_right _ ?_
      have : l ∈ createdNames ev := by
        rw [k5, createdNames_append]
        exact List.mem_append_left _ h2
      simpa using this
  · intro n m hcrn
    refine ⟨by simpa using hnotCreated n m hcrn, ?_⟩
    intro r hr d hd hnd
    obtain ⟨ds, j1, j2, j3, j4, j5, j6, j7⟩ := i4 r hr
    rw [j2, List.nil_append] at hd
    obtain ⟨i, hi, k1, k2, k3, k4, evA, evB, k5, -, k6⟩ := j7 d hd
    rcases List.mem_append.mp (k6 n hnd) with h1 | h2
    · exact h1
    · exfalso
      refine hnotCreated n m hcrn ?_
      rw [k5, createdNames_append]
      exact List.mem_append_left _ h2

/-- Claim C7: errors while fetching issues, fetching labels, or applying
labels are fatal: the run stops at once with that error and produces no
result; a completed run performed only successful applications.  With an
always-failing application gateway the trace contains at most one application
event, and when one occurs it is the last event of the run. -/
theorem c7_fatal_fetch_and_apply_errors (rules : List LabelingRule) (cfg : AutoLabelConfig)
    (hrules : rules ≠ []) :
    (∀ m lR cR aR, run (scripted (Except.error m) lR cR aR) rules cfg () =
      (Except.error (RunError.gatewayError m),
        [GatewayEvent.fetchIssues cfg.issueState], ())) ∧
    (∀ m (is : List Issue) cR aR,
      run (scripted (Except.ok is) (Except.error m) cR aR) rules cfg () =
      (Except.error (RunError.gatewayError m),
        [GatewayEvent.fetchIssues cfg.issueState, GatewayEvent.fetchLabels], ())) ∧
    (∀ m (is : List Issue) (ls : List Label) cR,
      (∀ r, (run (scripted (Except.ok is) (Except.ok ls) cR (fun _ _ => Except.error m))
          rules cfg ()).1 = Except.ok r →
        applyEvents (run (scripted (Except.ok is) (Except.ok ls) cR
          (fun _ _ => Except.error m)) rules cfg ()).2.1 = []) ∧
      (∀ e, (run (scripted (Except.ok is) (Except.ok ls) cR (fun _ _ => Except.error m))
          rules cfg ()).1 = Except.error e →
        e = RunError.gatewayError m ∧
        ∃ evA n2 ls2,
          (run (scripted (Except.ok is) (Except.ok ls) cR (fun _ _ => Except.error m))
            rules cfg ()).2.1 = evA ++ [GatewayEvent.labelIssue n2 ls2] ∧
          applyEvents evA = [])) ∧
    (∀ (is : List Issue) (ls : List Label) cR aR r,
      (run (scripted (Except.ok is) (Except.ok ls) cR aR) rules cfg ()).1 = Except.ok r →
      ∀ n ls2, GatewayEvent.labelIssue n ls2 ∈
        (run (scripted (Except.ok is) (Except.ok ls) cR aR) rules cfg ()).2.1 →
        aR n ls2 = Except.ok ()) := by
  refine ⟨?_, ?_, ?_, ?_⟩
  · intro m lR cR aR
    exact run_fetchIssues_error _ rules cfg () () m (isEmpty_false_of_ne_nil hrules) rfl
  · intro m is cR aR
    exact run_fetchLabels_error _ rules cfg () () () is m
      (isEmpty_false_of_ne_nil hrules) rfl rfl
  · intro m is ls cR
    obtain ⟨out, ev, u, hPI, hRun⟩ :=
      run_scripted_spec is ls cR (fun _ _ => Except.error m) rules cfg hrules
    obtain ⟨a1, a2, a3⟩ :=
      processIssues_apply_spec (Except.ok is) (Except.ok ls) cR (fun _ _ => Except.error m)
        rules cfg is (ls.map Label.name) _ out ev u hPI
    rw [hRun]
    constructor
    · intro r hr
      have hnone : ∀ n ls2, GatewayEvent.labelIssue n ls2 ∉ ev := by
        intro n ls2 hm
        have := a2 r hr n ls2 hm
        exact absurd this (by simp)
      simpa using (applyEvents_eq_nil_iff ev).mpr hnone
    · intro e he
      obtain ⟨m2, rfl⟩ := a1 e he
      obtain ⟨evA, n2, ls2, heq, hfail, hpre⟩ := a3 m2 he
      have hm2 : m2 = m := by
        injection hfail with hf
        exact hf.symm
      subst hm2
      refine ⟨rfl, GatewayEvent.fetchIssues cfg.issueState ::
        GatewayEvent.fetchLabels :: evA, n2, ls2, ?_, ?_⟩
      · rw [heq]
        rfl
      · have hnone : ∀ n3 ls3, GatewayEvent.labelIssue n3 ls3 ∉ evA := by
          intro n3 ls3 hm
          have := hpre n3 ls3 hm
          exact absurd this (by simp)
        simpa using (applyEvents_eq_nil_iff evA).mpr hnone
  · intro is ls cR aR r hr n ls2 hm
    obtain ⟨out, ev, u, hPI, hRun⟩ := run_scripted_spec is ls cR aR rules cfg hrules
    rw [hRun] at hr hm
    obtain ⟨a1, a2, a3⟩ :=
      processIssues_apply_spec (Except.ok is) (Except.ok ls) cR aR
        rules cfg is (ls.map Label.name) _ out ev u hPI
    rcases List.mem_cons.mp hm with heq | hm2
    · exact absurd heq (by simp)
    · rcases List.mem_cons.mp hm2 with heq | hm3
      · exact absurd heq (by simp)
      · exact a2 r hr n ls2 hm3

/-- A concrete unlabeled issue for witnesses. -/
def wIssue : Issue := ⟨1, "bug: crash", some "it crashes", []⟩

/-- A rule matching everything and proposing the pre-existing label. -/
def wRule : LabelingRule := ⟨fun _ => true, ["bug"], none⟩

/-- A rule matching everything and proposing a label missing from the repo. -/
def wRuleNew : LabelingRule := ⟨fun _ => true, ["new"], none⟩

/-- A concrete repository label set for witnesses. -/
def wLabelSet : List Label := [⟨"bug", "d73a4a", none⟩]

/-- A configuration with label creation turned on. -/
def wCfgCreate : AutoLabelConfig :=
  ⟨some true, some "0075ca", some true, some IssueState.opened⟩

/-- Witness for C3 on a concrete successful run with one labeled issue. -/
theorem c3_details_invariant_witness :
    (run (scripted (Except.ok [wIssue]) (Except.ok wLabelSet) (fun _ => Except.ok ())
      (fun _ _ => Except.ok ())) [wRule] DEFAULT_CONFIG ()).1 =
      Except.ok ⟨1, 1, 0, [⟨1, "bug: crash", ["bug"]⟩]⟩ ∧
    ((⟨1, 1, 0, [⟨1, "bug: crash", ["bug"]⟩]⟩ : AutoLabelResult).details.length =
      (⟨1, 1, 0, [⟨1, "bug: crash", ["bug"]⟩]⟩ : AutoLabelResult).labeledIssues) :=
  ⟨by rfl,
    (c3_details_invariant [wIssue] wLabelSet (fun _ => Except.ok ())
      (fun _ _ => Except.ok ()) [wRule] DEFAULT_CONFIG
      ⟨1, 1, 0, [⟨1, "bug: crash", ["bug"]⟩]⟩ (by rfl)).1⟩

/-- Witness for C6: with an always-failing create gateway the run still
completes, and the missing label is not recorded as created. -/
theorem c6_create_failure_nonfatal_witness :
    (∃ r, (run (scripted (Except.ok [wIssue]) (Except.ok wLabelSet)
      (fun _ => Except.error "boom") (fun _ _ => Except.ok ()))
      [wRuleNew] wCfgCreate ()).1 = Except.ok r) ∧
    "new" ∉ createdNames (run (scripted (Except.ok [wIssue]) (Except.ok wLabelSet)
      (fun _ => Except.error "boom") (fun _ _ => Except.ok ()))
      [wRuleNew] wCfgCreate ()).2.1 :=
  ⟨(c6_create_failure_nonfatal [wIssue] wLabelSet (fun _ => Except.error "boom")
      [wRuleNew] wCfgCreate (by simp)).1,
    ((c6_create_failure_nonfatal [wIssue] wLabelSet (fun _ => Except.error "boom")
      [wRuleNew] wCfgCreate (by simp)).2.2 "new" "boom" rfl).1⟩

/-- Witness for C7: a failing issue fetch aborts a concrete run with the
propagated error after a single gateway call. -/
theorem c7_fatal_fetch_and_apply_errors_witness :
    run (scripted (Except.error "down") (Except.ok wLabelSet) (fun _ => Except.ok ())
      (fun _ _ => Except.ok ())) [wRule] DEFAULT_CONFIG () =
    (Except.error (RunError.gatewayError "down"),
      [GatewayEvent.fetchIssues DEFAULT_CONFIG.issueState], ()) :=
  (c7_fatal_fetch_and_apply_errors [wRule] DEFAULT_CONFIG (by simp)).1 "down"
    (Except.ok wLabelSet) (fun _ => Except.ok ()) (fun _ _ => Except.ok ())

/-- First-seen deduplication with an explicit seen-set, the spec's
"deduplicated, in first-seen order". -/
def dedupFirstSeenAux (seen : List String) : List String → List String
  | [] => []
  | x :: xs =>
    if seen.contains x then dedupFirstSeenAux seen xs
    else x :: dedupFirstSeenAux (seen ++ [x]) xs

/-- First-seen deduplication of a list of names. -/
def dedupFirstSeen (l : List String) : List String := dedupFirstSeenAux [] l

/-- The labels of all rules matching a text, concatenated in rule order —
the raw multi-rule union before deduplication. -/
def matchingRulesLabels (rules : List LabelingRule) (text : String) : List String :=
  (rules.filter fun r => r.pattern text).foldr (fun r acc => r.labels ++ acc) []

theorem foldl_rules_eq_foldl_flat (text : String) :
    ∀ (rules : List LabelingRule) (acc : List String),
      rules.foldl
        (fun acc r => if r.pattern text then r.labels.foldl insertLabel acc else acc) acc =
      (matchingRulesLabels rules text).foldl insertLabel acc := by
  intro rules
  induction rules with
  | nil => intro acc; rfl
  | cons r rs ih =>
    intro acc
    by_cases hp : r.pattern text
    · have hM : matchingRulesLabels (r :: rs) text =
          r.labels ++ matchingRulesLabels rs text := by
        simp [matchingRulesLabels, List.filter_cons, hp]
      rw [List.foldl_cons, if_pos hp, ih, hM, List.foldl_append]
    · have hM : matchingRulesLabels (r :: rs) text = matchingRulesLabels rs text := by
        simp [matchingRulesLabels, List.filter_cons, hp]
      rw [List.foldl_cons, if_neg hp, ih, hM]

theorem foldl_insertLabel_eq_dedup :
    ∀ (l acc seen : List String), (∀ y, y ∈ seen ↔ y ∈ acc) →
      l.foldl insertLabel acc = acc ++ dedupFirstSeenAux seen l := by
  intro l
  induction l with
  | nil => intro acc seen hiff; simp [dedupFirstSeenAux]
  | cons x xs ih =>
    intro acc seen hiff
    by_cases hx : x ∈ acc
    · have hac : insertLabel acc x = acc := by
        simp only [insertLabel, if_pos ((contains_iff_mem acc x).mpr hx)]
      have hsc : seen.contains x = true := (contains_iff_mem seen x).mpr ((hiff x).mpr hx)
      simp only [List.foldl_cons, hac, dedupFirstSeenAux, if_pos hsc]
      exact ih acc seen hiff
    · have hac : insertLabel acc x = acc ++ [x] := by
        have : acc.contains x = false := by
          cases hc : acc.contains x
          · rfl
          · exact absurd ((contains_iff_mem acc x).mp hc) hx
        simp only [insertLabel, this, Bool.false_eq_true, if_false]
      have hsc : seen.contains x = false := by
        cases hc : seen.contains x
        · rfl
        · exact absurd ((hiff x).mp ((contains_iff_mem seen x).mp hc)) hx
      simp only [List.foldl_cons, hac, dedupFirstSeenAux, hsc, Bool.false_eq_true, if_false]
      rw [ih (acc ++ [x]) (seen ++ [x]) ?_]
      · simp
      · intro y
        simp only [List.mem_append, List.mem_singleton]
        exact Iff.or (hiff y) Iff.rfl

/-- `matchedLabels` is exactly the first-seen deduplication of the
concatenated labels of all matching rules. -/
theorem matchedLabels_eq_dedupFirstSeen (rules : List LabelingRule) (text : String) :
    matchedLabels rules text = dedupFirstSeen (matchingRulesLabels rules text) := by
  rw [matchedLabels, foldl_rules_eq_foldl_flat text rules []]
  exact foldl_insertLabel_eq_dedup (matchingRulesLabels rules text) [] [] (by simp)

theorem dedupFirstSeenAux_mem_nodup :
    ∀ (l seen : List String),
      (∀ y, y ∈ dedupFirstSeenAux seen l ↔ y ∈ l ∧ y ∉ seen) ∧
      (dedupFirstSeenAux seen l).Nodup := by
  intro l
  induction l with
  | nil => intro seen; simp [dedupFirstSeenAux]
  | cons x xs ih =>
    intro seen
    by_cases hx : x ∈ seen
    · have hsc : seen.contains x = true := (contains_iff_mem seen x).mpr hx
      simp only [dedupFirstSeenAux, if_pos hsc]
      refine ⟨?_, (ih seen).2⟩
      intro y
      rw [(ih seen).1 y]
      constructor
      · rintro ⟨h1, h2⟩
        exact ⟨List.mem_cons_of_mem _ h1, h2⟩
      · rintro ⟨h1, h2⟩
        rcases List.mem_cons.mp h1 with rfl | h3
        · exact absurd hx h2
        · exact ⟨h3, h2⟩
    · have hsc : seen.contains x = false := by
        cases hc : seen.contains x
        · rfl
        · exact absurd ((contains_iff_mem seen x).mp hc) hx
      simp only [dedupFirstSeenAux, hsc, Bool.false_eq_true, if_false]
      constructor
      · intro y
        constructor
        · intro hy
          rcases List.mem_cons.mp hy with rfl | hy2
          · exact ⟨List.mem_cons_self _ _, hx⟩
          · obtain ⟨h1, h2⟩ := ((ih (seen ++ [x])).1 y).mp hy2
            refine ⟨List.mem_cons_of_mem _ h1, fun hys => h2 (List.mem_append_left _ hys)⟩
        · rintro ⟨h1, h2⟩
          rcases List.mem_cons.mp h1 with rfl | h3
          · exact List.mem_cons_self _ _
          · by_cases hyx : y = x
            · exact hyx ▸ List.mem_cons_self _ _
            · refine List.mem_cons_of_mem _ (((ih (seen ++ [x])).1 y).mpr ⟨h3, ?_⟩)
              intro hm
              rcases List.mem_append.mp hm with hm1 | hm2
              · exact h2 hm1
              · exact hyx (List.mem_singleton.mp hm2)
      · refine List.nodup_cons.mpr ⟨?_, (ih (seen ++ [x])).2⟩
        intro hm
        obtain ⟨-, h2⟩ := ((ih (seen ++ [x])).1 x).mp hm
        exact h2 (List.mem_append_right _ (List.mem_singleton.mpr rfl))

theorem mem_matchingRulesLabels (rules : List LabelingRule) (text : String) (y : String) :
    y ∈ matchingRulesLabels rules text ↔
      ∃ r, r ∈ rules ∧ r.pattern text = true ∧ y ∈ r.labels := by
  induction rules with
  | nil => simp [matchingRulesLabels]
  | cons r rs ih =>
    by_cases hp : r.pattern text
    · rw [show matchingRulesLabels (r :: rs) text = r.labels ++ matchingRulesLabels rs text by
        simp [matchingRulesLabels, List.filter_cons, hp]]
      rw [List.mem_append, ih]
      constructor
      · rintro (h1 | ⟨r2, h2, h3, h4⟩)
        · exact ⟨r, List.mem_cons_self _ _, hp, h1⟩
        · exact ⟨r2, List.mem_cons_of_mem _ h2, h3, h4⟩
      · rintro ⟨r2, h2, h3, h4⟩
        rcases List.mem_cons.mp h2 with rfl | h5
        · exact Or.inl h4
        · exact Or.inr ⟨r2, h5, h3, h4⟩
    · rw [show matchingRulesLabels (r :: rs) text = matchingRulesLabels rs text by
        simp [matchingRulesLabels, List.filter_cons, hp]]
      rw [ih]
      constructor
      · rintro ⟨r2, h2, h3, h4⟩
        exact ⟨r2, List.mem_cons_of_mem _ h2, h3, h4⟩
      · rintro ⟨r2, h2, h3, h4⟩
        rcases List.mem_cons.mp h2 with rfl | h5
        · exact absurd h3 (by simpa using hp)
        · exact ⟨r2, h5, h3, h4⟩

/-- Inserting an issue that the skip test rejects anywhere in the batch does
not change the loop's behaviour at all. -/
theorem processIssues_skip_insert (ops : GatewayOps σ) (rules : List LabelingRule)
    (cfg : AutoLabelConfig) (i : Issue)
    (hcond : (!truthy cfg.relabelExistingIssues && !i.labels.isEmpty) = true) :
    ∀ (pre post : List Issue) (avail : List String) (res : AutoLabelResult) (s : σ),
      processIssues ops rules cfg (pre ++ i :: post) avail res s =
      processIssues ops rules cfg (pre ++ post) avail res s := by
  intro pre
  induction pre with
  | nil =>
    intro post avail res s
    simp only [List.nil_append]
    simp only [processIssues, if_pos hcond]
  | cons a pre2 ih =>
    intro post avail res s
    by_cases hskip : (!truthy cfg.relabelExistingIssues && !a.labels.isEmpty) = true
    · simp only [List.cons_append, processIssues, if_pos hskip]
      exact ih post avail res s
    · rcases hcm : (if truthy cfg.createMissingLabels then
          createMissing ops (colorOrDefault cfg.defaultLabelColor)
            (matchedLabels rules (issueText a)) avail s
        else (avail, 0, [], s)) with ⟨avail1, created, evC, s1⟩
      cases hfil : (matchedLabels rules (issueText a)).filter (fun l => avail1.contains l) with
      | nil =>
        simp only [List.cons_append, processIssues, if_neg hskip, hcm, hfil, List.append_eq]
        rw [ih]
      | cons v vs =>
        rcases happly : ops.labelIssue a.number (v :: vs) s1 with ⟨rA, s2⟩
        cases rA with
        | error msg =>
          simp only [List.cons_append, processIssues, if_neg hskip, hcm, hfil, happly]
        | ok uu =>
          simp only [List.cons_append, processIssues, if_neg hskip, hcm, hfil, happly,
            List.append_eq]
          rw [ih]

/-- The issue loop threads `totalIssues` through unchanged and never reads
it: changing the initial `totalIssues` only changes the final result's
`totalIssues` field. -/
theorem processIssues_total_param (ops : GatewayOps σ) (rules : List LabelingRule)
    (cfg : AutoLabelConfig) :
    ∀ (todo : List Issue) (avail : List String) (t2 t li lc : Nat) (ds0 : List Detail) (s : σ),
      processIssues ops rules cfg todo avail ⟨t2, li, lc, ds0⟩ s =
        ((processIssues ops rules cfg todo avail ⟨t, li, lc, ds0⟩ s).1.map
          (fun r => { r with totalIssues := t2 }),
         (processIssues ops rules cfg todo avail ⟨t, li, lc, ds0⟩ s).2) := by
  intro todo
  induction todo with
  | nil =>
    intro avail t2 t li lc ds0 s
    simp [processIssues, Except.map]
  | cons a rest ih =>
    intro avail t2 t li lc ds0 s
    by_cases hskip : (!truthy cfg.relabelExistingIssues && !a.labels.isEmpty) = true
    · simp only [processIssues, if_pos hskip]
      exact ih avail t2 t li lc ds0 s
    · rcases hcm : (if truthy cfg.createMissingLabels then
          createMissing ops (colorOrDefault cfg.defaultLabelColor)
            (matchedLabels rules (issueText a)) avail s
        else (avail, 0, [], s)) with ⟨avail1, created, evC, s1⟩
      cases hfil : (matchedLabels rules (issueText a)).filter (fun l => avail1.contains l) with
      | nil =>
        simp only [processIssues, if_neg hskip, hcm, hfil]
        rw [ih avail1 t2 t li (lc + created) ds0 s1]
      | cons v vs =>
        rcases happly : ops.labelIssue a.number (v :: vs) s1 with ⟨rA, s2⟩
        cases rA with
        | error msg =>
          simp only [processIssues, if_neg hskip, hcm, hfil, happly, Except.map]
        | ok uu =>
          simp only [processIssues, if_neg hskip, hcm, hfil, happly]
          rw [ih avail1 t2 t (li + 1) (lc + created)
            (ds0 ++ [Detail.mk a.number a.title (v :: vs)]) s2]

/-- The creation loop only uses the gateway's `createLabel` operation. -/
theorem createMissing_ops_congr (ops ops2 : GatewayOps σ) (color : String)
    (hC : ops.createLabel = ops2.createLabel) :
    ∀ (ls avail : List String) (s : σ),
      createMissing ops color ls avail s = createMissing ops2 color ls avail s := by
  intro ls
  induction ls with
  | nil => intro avail s; rfl
  | cons l rest ih =>
    intro avail s
    simp only [createMissing, hC, ih]

/-- The issue loop only uses the gateway's `createLabel` and `labelIssue`
operations. -/
theorem processIssues_ops_congr (ops ops2 : GatewayOps σ) (rules : List LabelingRule)
    (cfg : AutoLabelConfig)
    (hC : ops.createLabel = ops2.createLabel) (hL : ops.labelIssue = ops2.labelIssue) :
    ∀ (todo : List Issue) (avail : List String) (res : AutoLabelResult) (s : σ),
      processIssues ops rules cfg todo avail res s =
        processIssues ops2 rules cfg todo avail res s := by
  intro todo
  induction todo with
  | nil => intro avail res s; rfl
  | cons a rest ih =>
    intro avail res s
    simp only [processIssues, hC, hL, createMissing_ops_congr ops ops2 _ hC, ih]

/-- Claim C5: with a falsy `relabelExistingIssues`, an already-labeled issue
is skipped entirely — the run over a batch containing it produces exactly the
same gateway trace (so no creation or application call for it), the same
details, and the same counters as the run over the batch without it, except
that `totalIssues` counts the full batch. -/
theorem c5_skip_already_labeled (is1 is2 : List Issue) (i : Issue) (ls : List Label)
    (cR : String → Except String Unit) (aR : Nat → List String → Except String Unit)
    (rules : List LabelingRule) (cfg : AutoLabelConfig)
    (hrel : truthy cfg.relabelExistingIssues = false) (hlab : i.labels ≠ []) :
    (run (scripted (Except.ok (is1 ++ i :: is2)) (Except.ok ls) cR aR) rules cfg ()).2.1 =
      (run (scripted (Except.ok (is1 ++ is2)) (Except.ok ls) cR aR) rules cfg ()).2.1 ∧
    (run (scripted (Except.ok (is1 ++ i :: is2)) (Except.ok ls) cR aR) rules cfg ()).1 =
      Except.map (fun r => { r with totalIssues := (is1 ++ i :: is2).length })
        ((run (scripted (Except.ok (is1 ++ is2)) (Except.ok ls) cR aR) rules cfg ()).1) := by
  by_cases hrules : rules = []
  · subst hrules
    rw [show run (scripted (Except.ok (is1 ++ i :: is2)) (Except.ok ls) cR aR) [] cfg () =
        (Except.error RunError.noRulesConfigured, [], ()) by simp [run]]
    rw [show run (scripted (Except.ok (is1 ++ is2)) (Except.ok ls) cR aR) [] cfg () =
        (Except.error RunError.noRulesConfigured, [], ()) by simp [run]]
    exact ⟨rfl, rfl⟩
  · have hcond : (!truthy cfg.relabelExistingIssues && !i.labels.isEmpty) = true := by
      rw [hrel, isEmpty_false_of_ne_nil hlab]
      rfl
    rcases hred : processIssues (scripted (Except.ok (is1 ++ is2)) (Except.ok ls) cR aR)
        rules cfg (is1 ++ is2) (ls.map Label.name)
        { totalIssues := (is1 ++ is2).length, labeledIssues := 0, labelsCreated := 0,
          details := [] } () with ⟨out2, ev2, u2⟩
    have hfull : processIssues (scripted (Except.ok (is1 ++ i :: is2)) (Except.ok ls) cR aR)
        rules cfg (is1 ++ i :: is2) (ls.map Label.name)
        { totalIssues := (is1 ++ i :: is2).length, labeledIssues := 0, labelsCreated := 0,
          details := [] } () =
        (out2.map (fun r => { r with totalIssues := (is1 ++ i :: is2).length }), ev2, u2) := by
      rw [processIssues_skip_insert (scripted (Except.ok (is1 ++ i :: is2)) (Except.ok ls)
        cR aR) rules cfg i hcond is1 is2]
      rw [processIssues_total_param (scripted (Except.ok (is1 ++ i :: is2)) (Except.ok ls)
        cR aR) rules cfg (is1 ++ is2) (ls.map Label.name) (is1 ++ i :: is2).length
        (is1 ++ is2).length 0 0 [] ()]
      rw [processIssues_ops_congr (scripted (Except.ok (is1 ++ i :: is2)) (Except.ok ls)
        cR aR) (scripted (Except.ok (is1 ++ is2)) (Except.ok ls) cR aR) rules cfg rfl rfl]
      rw [hred]
    rw [run_eq_processIssues _ rules cfg () () () u2 (is1 ++ i :: is2) ls _ ev2
        (isEmpty_false_of_ne_nil hrules) rfl rfl hfull,
      run_eq_processIssues _ rules cfg () () () u2 (is1 ++ is2) ls out2 ev2
        (isEmpty_false_of_ne_nil hrules) rfl rfl hred]
    exact ⟨rfl, rfl⟩

/-- Witness for C5 at a concrete already-labeled issue: same trace, result
differing only in `totalIssues`. -/
theorem c5_skip_already_labeled_witness :
    (run (scripted (Except.ok ([] ++ (⟨2, "old", none, ["done"]⟩ : Issue) :: [wIssue]))
      (Except.ok wLabelSet) (fun _ => Except.ok ()) (fun _ _ => Except.ok ()))
      [wRule] ⟨some false, some "0075ca", some false, some IssueState.opened⟩ ()).2.1 =
    (run (scripted (Except.ok ([] ++ [wIssue])) (Except.ok wLabelSet)
      (fun _ => Except.ok ()) (fun _ _ => Except.ok ()))
      [wRule] ⟨some false, some "0075ca", some false, some IssueState.opened⟩ ()).2.1 :=
  (c5_skip_already_labeled [] [wIssue] ⟨2, "old", none, ["done"]⟩ wLabelSet
    (fun _ => Except.ok ()) (fun _ _ => Except.ok ()) [wRule]
    ⟨some false, some "0075ca", some false, some IssueState.opened⟩ rfl (by simp)).1

theorem filterMap_applyNumOf_applyEvents (ev : List GatewayEvent) :
    (applyEvents ev).filterMap applyNumOf = ev.filterMap applyNumOf := by
  induction ev with
  | nil => rfl
  | cons e evs ih =>
    cases e with
    | fetchIssues st => simpa [List.filterMap_cons, applyNumOf] using ih
    | fetchLabels => simpa [List.filterMap_cons, applyNumOf] using ih
    | createLabel n c d ok => simpa [List.filterMap_cons, applyNumOf] using ih
    | labelIssue n ls =>
      simp only [applyEvents_cons_labelIssue, List.filterMap_cons, applyNumOf]
      rw [ih]

theorem filterMap_applyNumOf_detailEvent (ds : List Detail) :
    (ds.map detailEvent).filterMap applyNumOf = ds.map Detail.issueNumber := by
  induction ds with
  | nil => rfl
  | cons d ds2 ih =>
    simp only [List.map_cons, List.filterMap_cons, detailEvent, applyNumOf]
    rw [ih]

/-- The issue loop over the honest repository gateway never throws. -/
theorem processIssues_repo_ok (rules : List LabelingRule) (cfg : AutoLabelConfig) :
    ∀ (todo : List Issue) (avail : List String) (res : AutoLabelResult) (s : RepoState),
      ∃ r ev s1, processIssues repoOps rules cfg todo avail res s = (Except.ok r, ev, s1) := by
  intro todo
  induction todo with
  | nil =>
    intro avail res s
    exact ⟨res, [], s, rfl⟩
  | cons a rest ih =>
    intro avail res s
    by_cases hskip : (!truthy cfg.relabelExistingIssues && !a.labels.isEmpty) = true
    · obtain ⟨r, ev, s1, h⟩ := ih avail res s
      exact ⟨r, ev, s1, by simp only [processIssues, if_pos hskip]; exact h⟩
    · rcases hcm : (if truthy cfg.createMissingLabels then
          createMissing repoOps (colorOrDefault cfg.defaultLabelColor)
            (matchedLabels rules (issueText a)) avail s
        else (avail, 0, [], s)) with ⟨avail1, created, evC, s1⟩
      cases hfil : (matchedLabels rules (issueText a)).filter (fun l => avail1.contains l) with
      | nil =>
        obtain ⟨r, ev, s2, h⟩ := ih avail1
          { res with labelsCreated := res.labelsCreated + created } s1
        refine ⟨r, evC ++ ev, s2, ?_⟩
        simp only [processIssues, if_neg hskip, hcm, hfil, h]
      | cons v vs =>
        have happly : repoOps.labelIssue a.number (v :: vs) s1 =
            (Except.ok (),
              ⟨s1.issues.map fun i =>
                if i.number = a.number then ⟨i.number, i.title, i.body, i.labels ++ (v :: vs)⟩
                else i, s1.repoLabels⟩) := rfl
        obtain ⟨r, ev, s2, h⟩ := ih avail1
          { totalIssues := res.totalIssues
            labeledIssues := res.labeledIssues + 1
            labelsCreated := res.labelsCreated + created
            details := res.details ++ [⟨a.number, a.title, v :: vs⟩] }
          ⟨s1.issues.map fun i =>
            if i.number = a.number then ⟨i.number, i.title, i.body, i.labels ++ (v :: vs)⟩
            else i, s1.repoLabels⟩
        refine ⟨r, evC ++ GatewayEvent.labelIssue a.number (v :: vs) :: ev, s2, ?_⟩
        simp only [processIssues, if_neg hskip, hcm, hfil, happly, h]

/-- What one issue would currently receive: with creation on, all its matched
labels; with creation off, only those already known. -/
def candidateLabels (cfg : AutoLabelConfig) (rules : List LabelingRule)
    (names : List String) (i : Issue) : List String :=
  if truthy cfg.createMissingLabels then matchedLabels rules (issueText i)
  else (matchedLabels rules (issueText i)).filter (fun l => names.contains l)

/-- A repository state on which a further run (with relabeling off) has
nothing left to do: every issue is labeled or has an empty candidate set. -/
def StableRepo (cfg : AutoLabelConfig) (rules : List LabelingRule) (s : RepoState) : Prop :=
  ∀ i ∈ s.issues,
    i.labels ≠ [] ∨ candidateLabels cfg rules (s.repoLabels.map Label.name) i = []

/-- Over the honest gateway the creation loop keeps the local name cache in
sync with the repository's labels, never touches the issues, only grows the
cache, and ends with every requested name present. -/
theorem createMissing_repo_sync (color : String) :
    ∀ (ls avail : List String) (s : RepoState) (avail1 : List String) (k : Nat)
      (ev : List GatewayEvent) (s1 : RepoState),
      avail = s.repoLabels.map Label.name →
      createMissing repoOps color ls avail s = (avail1, k, ev, s1) →
      avail1 = s1.repoLabels.map Label.name ∧
      s1.issues = s.issues ∧
      (∀ x ∈ avail, x ∈ avail1) ∧
      (∀ l ∈ ls, l ∈ avail1) := by
  intro ls
  induction ls with
  | nil =>
    intro avail s avail1 k ev s1 hsync h
    simp only [createMissing] at h
    injection h with h1 h2
    injection h2 with h2 h3
    injection h3 with h3 h4
    subst h1 h4
    exact ⟨hsync, rfl, fun x hx => hx, by simp⟩
  | cons l rest ih =>
    intro avail s avail1 k ev s1 hsync h
    by_cases hc : avail.contains l
    · rw [show createMissing repoOps color (l :: rest) avail s =
          createMissing repoOps color rest avail s by
        simp only [createMissing, if_pos hc]] at h
      obtain ⟨i1, i2, i3, i4⟩ := ih avail s avail1 k ev s1 hsync h
      refine ⟨i1, i2, i3, ?_⟩
      intro x hx
      rcases List.mem_cons.mp hx with rfl | hx2
      · exact i3 x ((contains_iff_mem avail x).mp hc)
      · exact i4 x hx2
    · have hcall : repoOps.createLabel l color ("Auto-created label for " ++ l) s =
          (Except.ok (),
            ⟨s.issues, s.repoLabels ++ [⟨l, color, some ("Auto-created label for " ++ l)⟩]⟩) :=
        rfl
      rcases hrec : createMissing repoOps color rest (avail ++ [l])
          ⟨s.issues, s.repoLabels ++ [⟨l, color, some ("Auto-created label for " ++ l)⟩]⟩ with
        ⟨availB, kB, evB, sB⟩
      rw [show createMissing repoOps color (l :: rest) avail s =
          (availB, kB + 1,
            GatewayEvent.createLabel l color ("Auto-created label for " ++ l) true :: evB,
            sB) by
        simp only [createMissing, if_neg hc, hcall, hrec]] at h
      injection h with h1 h2
      injection h2 with h2 h3
      injection h3 with h3 h4
      subst h1 h4
      have hsync2 : avail ++ [l] =
          (⟨s.issues, s.repoLabels ++
            [⟨l, color, some ("Auto-created label for " ++ l)⟩]⟩ : RepoState).repoLabels.map
            Label.name := by
        simp [hsync]
      obtain ⟨i1, i2, i3, i4⟩ := ih (avail ++ [l]) _ availB kB evB sB hsync2 hrec
      refine ⟨i1, i2, ?_, ?_⟩
      · intro x hx
        exact i3 x (List.mem_append_left _ hx)
      · intro x hx
        rcases List.mem_cons.mp hx with rfl | hx2
        · exact i3 x (List.mem_append_right _ (List.mem_singleton.mpr rfl))
        · exact i4 x hx2

/-- On a batch in which every issue is already labeled or has an empty
candidate set, the loop (with relabeling off) does nothing: no gateway call,
no result change, no state change. -/
theorem processIssues_repo_stable (rules : List LabelingRule) (cfg : AutoLabelConfig)
    (hrel : truthy cfg.relabelExistingIssues = false) :
    ∀ (todo : List Issue) (avail : List String) (res : AutoLabelResult) (s : RepoState),
      (∀ i ∈ todo, i.labels ≠ [] ∨ candidateLabels cfg rules avail i = []) →
      processIssues repoOps rules cfg todo avail res s = (Except.ok res, [], s) := by
  intro todo
  induction todo with
  | nil => intro avail res s h; rfl
  | cons a rest ih =>
    intro avail res s h
    have hrest : ∀ i ∈ rest, i.labels ≠ [] ∨ candidateLabels cfg rules avail i = [] :=
      fun i hi => h i (List.mem_cons_of_mem _ hi)
    by_cases hskipc : (!truthy cfg.relabelExistingIssues && !a.labels.isEmpty) = true
    · simp only [processIssues, if_pos hskipc]
      exact ih avail res s hrest
    · have hcand : candidateLabels cfg rules avail a = [] := by
        rcases h a (List.mem_cons_self _ _) with hne | hc
        · exfalso
          apply hskipc
          rw [hrel, isEmpty_false_of_ne_nil hne]
          rfl
        · exact hc
      by_cases hflag : truthy cfg.createMissingLabels
      · have hmatched : matchedLabels rules (issueText a) = [] := by
          have hc := hcand
          rw [candidateLabels, if_pos hflag] at hc
          exact hc
        have hcm : (if truthy cfg.createMissingLabels then
            createMissing repoOps (colorOrDefault cfg.defaultLabelColor)
              (matchedLabels rules (issueText a)) avail s
          else (avail, 0, [], s)) = (avail, 0, [], s) := by
          rw [if_pos hflag, hmatched]
          rfl
        have hfil : (matchedLabels rules (issueText a)).filter (fun l => avail.contains l) =
            [] := by
          rw [hmatched]
          rfl
        simp only [processIssues, if_neg hskipc, hcm, hfil, List.nil_append]
        rw [show ({ res with labelsCreated := res.labelsCreated + 0 } : AutoLabelResult) =
            res by cases res; rfl]
        rw [ih avail res s hrest]
      · have hfil : (matchedLabels rules (issueText a)).filter (fun l => avail.contains l) =
            [] := by
          have hc := hcand
          rw [candidateLabels, if_neg hflag] at hc
          exact hc
        have hcm : (if truthy cfg.createMissingLabels then
            createMissing repoOps (colorOrDefault cfg.defaultLabelColor)
              (matchedLabels rules (issueText a)) avail s
          else (avail, 0, [], s)) = (avail, 0, [], s) := if_neg hflag
        simp only [processIssues, if_neg hskipc, hcm, hfil, List.nil_append]
        rw [show ({ res with labelsCreated := res.labelsCreated + 0 } : AutoLabelResult) =
            res by cases res; rfl]
        rw [ih avail res s hrest]

/-- A run (with relabeling off) on a stable repository does nothing beyond
the two fetches. -/
theorem run_repo_stable (rules : List LabelingRule) (cfg : AutoLabelConfig)
    (hrules : rules ≠ []) (hrel : truthy cfg.relabelExistingIssues = false)
    (s : RepoState) (hstable : StableRepo cfg rules s) :
    run repoOps rules cfg s =
      (Except.ok ⟨s.issues.length, 0, 0, []⟩,
        [GatewayEvent.fetchIssues cfg.issueState, GatewayEvent.fetchLabels], s) :=
  run_eq_processIssues repoOps rules cfg s s s s s.issues s.repoLabels _ []
    (isEmpty_false_of_ne_nil hrules) rfl rfl
    (processIssues_repo_stable rules cfg hrel s.issues (s.repoLabels.map Label.name)
      ⟨s.issues.length, 0, 0, []⟩ s hstable)

theorem nodup_middle_facts {α : Type} {dn : List α} {n : α} {rn : List α}
    (h : (dn ++ n :: rn).Nodup) : n ∉ dn ∧ n ∉ rn := by
  obtain ⟨h1, h2, h3⟩ := List.nodup_append.mp h
  exact ⟨fun hm => h3 hm (List.mem_cons_self _ _), (List.nodup_cons.mp h2).1⟩

theorem map_update_id (num : Nat) (ls2 : List String) :
    ∀ l : List Issue, num ∉ l.map Issue.number →
      l.map (fun i => if i.number = num then
        (⟨i.number, i.title, i.body, i.labels ++ ls2⟩ : Issue) else i) = l := by
  intro l
  induction l with
  | nil => intro h; rfl
  | cons x xs ih =>
    intro h
    have h2 : ¬(num = x.number ∨ num ∈ xs.map Issue.number) := by simpa using h
    obtain ⟨h3, h4⟩ := not_or.mp h2
    have hx : ¬x.number = num := fun he => h3 he.symm
    simp only [List.map_cons, if_neg hx, ih h4]

theorem map_update_middle (done tail : List Issue) (a : Issue) (ls2 : List String)
    (h1 : a.number ∉ done.map Issue.number) (h2 : a.number ∉ tail.map Issue.number) :
    (done ++ a :: tail).map (fun i => if i.number = a.number then
      (⟨i.number, i.title, i.body, i.labels ++ ls2⟩ : Issue) else i) =
    done ++ (⟨a.number, a.title, a.body, a.labels ++ ls2⟩ : Issue) :: tail := by
  rw [List.map_append, map_update_id a.number ls2 done h1, List.map_cons, if_pos rfl,
    map_update_id a.number ls2 tail h2]

/-- The key invariant behind the idempotence property: a run of the loop over
the honest gateway (with relabeling off and distinct issue numbers) leaves
the repository stable — every issue either carries a label or has an empty
candidate set — and preserves the issue numbers. -/
theorem processIssues_repo_stabilizes (rules : List LabelingRule) (cfg : AutoLabelConfig)
    (hrel : truthy cfg.relabelExistingIssues = false) :
    ∀ (todo done : List Issue) (avail : List String) (res : AutoLabelResult) (s : RepoState)
      (out : Except RunError AutoLabelResult) (ev : List GatewayEvent) (sF : RepoState),
      s.issues = done ++ todo →
      avail = s.repoLabels.map Label.name →
      (s.issues.map Issue.number).Nodup →
      (∀ i ∈ done, i.labels ≠ [] ∨ candidateLabels cfg rules avail i = []) →
      processIssues repoOps rules cfg todo avail res s = (out, ev, sF) →
      StableRepo cfg rules sF ∧
      sF.issues.map Issue.number = s.issues.map Issue.number := by
  intro todo
  induction todo with
  | nil =>
    intro done avail res s out ev sF hiss hsync hnodup hdone h
    simp only [processIssues] at h
    injection h with h1 h2
    injection h2 with h2 h3
    subst h3
    refine ⟨?_, rfl⟩
    intro i hi
    rw [← hsync]
    refine hdone i ?_
    rw [hiss, List.append_nil] at hi
    exact hi
  | cons a rest ih =>
    intro done avail res s out ev sF hiss hsync hnodup hdone h
    have hnums : (done.map Issue.number ++ a.number :: rest.map Issue.number).Nodup := by
      have := hnodup
      rw [hiss] at this
      simpa [List.map_append] using this
    obtain ⟨hnd, hnr⟩ := nodup_middle_facts hnums
    by_cases hskipc : (!truthy cfg.relabelExistingIssues && !a.labels.isEmpty) = true
    · have halab : a.labels ≠ [] := by
        intro hnil
        rw [hrel, hnil] at hskipc
        simp at hskipc
      rw [show processIssues repoOps rules cfg (a :: rest) avail res s =
          processIssues repoOps rules cfg rest avail res s by
        simp only [processIssues, if_pos hskipc]] at h
      refine ih (done ++ [a]) avail res s out ev sF ?_ hsync hnodup ?_ h
      · rw [hiss]
        simp
      · intro i hi
        rcases List.mem_append.mp hi with hi1 | hi2
        · exact hdone i hi1
        · rw [List.mem_singleton.mp hi2]
          exact Or.inl halab
    · have halab : a.labels = [] := by
        cases hl : a.labels with
        | nil => rfl
        | cons x xs =>
          exfalso
          apply hskipc
          rw [hrel, hl]
          rfl
      rcases hcm : (if truthy cfg.createMissingLabels then
          createMissing repoOps (colorOrDefault cfg.defaultLabelColor)
            (matchedLabels rules (issueText a)) avail s
        else (avail, 0, [], s)) with ⟨avail1, created, evC, s1⟩
      have hfacts : avail1 = s1.repoLabels.map Label.name ∧ s1.issues = s.issues ∧
          (truthy cfg.createMissingLabels = true →
            ∀ l ∈ matchedLabels rules (issueText a), l ∈ avail1) ∧
          (truthy cfg.createMissingLabels = false → avail1 = avail) := by
        by_cases hflag : truthy cfg.createMissingLabels
        · rw [if_pos hflag] at hcm
          obtain ⟨f1, f2, f3, f4⟩ :=
            createMissing_repo_sync _ _ avail s avail1 created evC s1 hsync hcm
          exact ⟨f1, f2, fun _ => f4, fun hf => absurd hflag (by rw [hf]; simp)⟩
        · rw [if_neg hflag] at hcm
          injection hcm with h1 h2
          injection h2 with h2 h3
          injection h3 with h3 h4
          subst h1 h4
          exact ⟨hsync, rfl, fun hf => absurd hf hflag, fun _ => rfl⟩
      obtain ⟨hsync1, hiss1, hall, hflagfalse⟩ := hfacts
      have hdone1 : ∀ i ∈ done, i.labels ≠ [] ∨ candidateLabels cfg rules avail1 i = [] := by
        intro i hi
        rcases hdone i hi with h1 | h2
        · exact Or.inl h1
        · right
          by_cases hflag : truthy cfg.createMissingLabels
          · rw [candidateLabels, if_pos hflag] at h2 ⊢
            exact h2
          · have hfv : truthy cfg.createMissingLabels = false := by
              cases hq : truthy cfg.createMissingLabels
              · rfl
              · exact absurd hq hflag
            rw [hflagfalse hfv]
            exact h2
      cases hfil : (matchedLabels rules (issueText a)).filter (fun l => avail1.contains l) with
      | nil =>
        rcases hrec : processIssues repoOps rules cfg rest avail1
            { res with labelsCreated := res.labelsCreated + created } s1 with ⟨outR, evR, s2⟩
        rw [show processIssues repoOps rules cfg (a :: rest) avail res s =
            (outR, evC ++ evR, s2) by
          simp only [processIssues, if_neg hskipc, hcm, hfil, hrec]] at h
        injection h with h1 h2
        injection h2 with h2 h3
        subst h1 h3
        have hstab_a : candidateLabels cfg rules avail1 a = [] := by
          by_cases hflag : truthy cfg.createMissingLabels
          · rw [candidateLabels, if_pos hflag]
            have hself : (matchedLabels rules (issueText a)).filter
                (fun l => avail1.contains l) = matchedLabels rules (issueText a) :=
              List.filter_eq_self.mpr
                (fun x hx => (contains_iff_mem avail1 x).mpr (hall hflag x hx))
            rw [hself] at hfil
            exact hfil
          · rw [candidateLabels, if_neg hflag]
            exact hfil
        obtain ⟨c1, c2⟩ := ih (done ++ [a]) avail1 _ s1 outR evR s2
          (by rw [hiss1, hiss]; simp) hsync1 (by rw [hiss1]; exact hnodup)
          (by
            intro i hi
            rcases List.mem_append.mp hi with hi1 | hi2
            · exact hdone1 i hi1
            · rw [List.mem_singleton.mp hi2]
              exact Or.inr hstab_a)
          hrec
        exact ⟨c1, by rw [c2, hiss1]⟩
      | cons v vs =>
        have happly : repoOps.labelIssue a.number (v :: vs) s1 =
            (Except.ok (),
              ⟨s1.issues.map fun i =>
                if i.number = a.number then ⟨i.number, i.title, i.body, i.labels ++ (v :: vs)⟩
                else i, s1.repoLabels⟩) := rfl
        rcases hrec : processIssues repoOps rules cfg rest avail1
            { totalIssues := res.totalIssues
              labeledIssues := res.labeledIssues + 1
              labelsCreated := res.labelsCreated + created
              details := res.details ++ [⟨a.number, a.title, v :: vs⟩] }
            ⟨s1.issues.map fun i =>
              if i.number = a.number then ⟨i.number, i.title, i.body, i.labels ++ (v :: vs)⟩
              else i, s1.repoLabels⟩ with ⟨outR, evR, s2⟩
        rw [show processIssues repoOps rules cfg (a :: rest) avail res s =
            (outR, evC ++ GatewayEvent.labelIssue a.number (v :: vs) :: evR, s2) by
          simp only [processIssues, if_neg hskipc, hcm, hfil, happly, hrec]] at h
        injection h with h1 h2
        injection h2 with h2 h3
        subst h1 h3
        have hupd : (s1.issues.map fun i =>
            if i.number = a.number then
              (⟨i.number, i.title, i.body, i.labels ++ (v :: vs)⟩ : Issue)
            else i) = done ++ (⟨a.number, a.title, a.body, a.labels ++ (v :: vs)⟩ : Issue)
              :: rest := by
          rw [hiss1, hiss]
          exact map_update_middle done rest a (v :: vs) hnd hnr
        obtain ⟨c1, c2⟩ := ih
          (done ++ [⟨a.number, a.title, a.body, a.labels ++ (v :: vs)⟩]) avail1 _
          ⟨s1.issues.map fun i =>
            if i.number = a.number then ⟨i.number, i.title, i.body, i.labels ++ (v :: vs)⟩
            else i, s1.repoLabels⟩ outR evR s2
          (by
            show (s1.issues.map fun i => if i.number = a.number then
                (⟨i.number, i.title, i.body, i.labels ++ (v :: vs)⟩ : Issue) else i) = _
            rw [hupd]
            simp)
          hsync1
          (by
            show ((s1.issues.map fun i => if i.number = a.number then
                (⟨i.number, i.title, i.body, i.labels ++ (v :: vs)⟩ : Issue) else i).map
                Issue.number).Nodup
            rw [hupd]
            have : (done ++
                (⟨a.number, a.title, a.body, a.labels ++ (v :: vs)⟩ : Issue) :: rest).map
                Issue.number = (done ++ a :: rest).map Issue.number := by
              simp [List.map_append]
            rw [this, ← hiss]
            exact hnodup)
          (by
            intro i hi
            rcases List.mem_append.mp hi with hi1 | hi2
            · exact hdone1 i hi1
            · rw [List.mem_singleton.mp hi2]
              exact Or.inl (by simp))
          hrec
        refine ⟨c1, ?_⟩
        rw [c2]
        show ((s1.issues.map fun i => if i.number = a.number then
            (⟨i.number, i.title, i.body, i.labels ++ (v :: vs)⟩ : Issue) else i).map
            Issue.number) = _
        rw [hupd]
        have : (done ++
            (⟨a.number, a.title, a.body, a.labels ++ (v :: vs)⟩ : Issue) :: rest).map
            Issue.number = (done ++ a :: rest).map Issue.number := by
          simp [List.map_append]
        rw [this, ← hiss]

/-- Counterexample to C9 as stated: over the honest gateway, a repository
with one previously-unlabeled issue whose text matches no rule.  Running the
engine twice labels that issue zero times, not "exactly once": across both
runs there is no label-application call for it at all. -/
theorem c9_exactly_once_counterexample :
    (⟨[⟨1, "t", none, []⟩], []⟩ : RepoState).issues.map Issue.labels = [[]] ∧
    countApply 1
      ((run repoOps [⟨fun _ => false, ["bug"], none⟩]
          ⟨some false, some "0075ca", some false, some IssueState.opened⟩
          ⟨[⟨1, "t", none, []⟩], []⟩).2.1 ++
        (run repoOps [⟨fun _ => false, ["bug"], none⟩]
          ⟨some false, some "0075ca", some false, some IssueState.opened⟩
          (run repoOps [⟨fun _ => false, ["bug"], none⟩]
            ⟨some false, some "0075ca", some false, some IssueState.opened⟩
            ⟨[⟨1, "t", none, []⟩], []⟩).2.2).2.1) = 0 :=
  ⟨rfl, rfl⟩

/-- Claim C9, amended: over the honest gateway (label applications become
visible), with `relabelExistingIssues` falsy and distinct issue numbers,
the first run completes; each issue is the target of at most one
label-application call across both runs (exactly one when its first-run
candidate set survives filtering — not every previously-unlabeled issue is
labeled); and the second run labels zero additional issues: it returns
`labeledIssues = 0` with empty details, performs no creation or application
call, and leaves the repository unchanged. -/
theorem c9_second_run_labels_nothing (rules : List LabelingRule) (cfg : AutoLabelConfig)
    (s0 : RepoState) (hrules : rules ≠ [])
    (hrel : truthy cfg.relabelExistingIssues = false)
    (hnodup : (s0.issues.map Issue.number).Nodup) :
    (∃ r1, (run repoOps rules cfg s0).1 = Except.ok r1) ∧
    run repoOps rules cfg (run repoOps rules cfg s0).2.2 =
      (Except.ok ⟨(run repoOps rules cfg s0).2.2.issues.length, 0, 0, []⟩,
        [GatewayEvent.fetchIssues cfg.issueState, GatewayEvent.fetchLabels],
        (run repoOps rules cfg s0).2.2) ∧
    (∀ i ∈ s0.issues, i.labels = [] →
      countApply i.number ((run repoOps rules cfg s0).2.1 ++
        (run repoOps rules cfg (run repoOps rules cfg s0).2.2).2.1) ≤ 1) := by
  obtain ⟨r1, ev1, s1, hPI1⟩ := processIssues_repo_ok rules cfg s0.issues
    (s0.repoLabels.map Label.name)
    { totalIssues := s0.issues.length, labeledIssues := 0, labelsCreated := 0, details := [] }
    s0
  have hRun1 : run repoOps rules cfg s0 =
      (Except.ok r1,
        GatewayEvent.fetchIssues cfg.issueState :: GatewayEvent.fetchLabels :: ev1, s1) :=
    run_eq_processIssues repoOps rules cfg s0 s0 s0 s1 s0.issues s0.repoLabels _ ev1
      (isEmpty_false_of_ne_nil hrules) rfl rfl hPI1
  obtain ⟨hstable, hnums1⟩ := processIssues_repo_stabilizes rules cfg hrel s0.issues []
    (s0.repoLabels.map Label.name) _ s0 _ ev1 s1 (by simp) rfl hnodup (by simp) hPI1
  have hRun2 := run_repo_stable rules cfg hrules hrel s1 hstable
  obtain ⟨i1p, i2p, i3p, i4p⟩ := processIssues_spec repoOps rules cfg s0.issues
    (s0.repoLabels.map Label.name) _ s0 _ ev1 s1 hPI1
  obtain ⟨ds, j1, j2, j3, j4, j5, j6, j7⟩ := i4p r1 rfl
  have hnumsA : ev1.filterMap applyNumOf = ds.map Detail.issueNumber := by
    rw [← filterMap_applyNumOf_applyEvents, j5, filterMap_applyNumOf_detailEvent]
  have hndds : (ds.map Detail.issueNumber).Nodup := hnodup.sublist j6
  rw [hRun1]
  refine ⟨⟨r1, rfl⟩, hRun2, ?_⟩
  intro i hi hlab
  show countApply i.number
    ((GatewayEvent.fetchIssues cfg.issueState :: GatewayEvent.fetchLabels :: ev1) ++
      (run repoOps rules cfg s1).2.1) ≤ 1
  rw [hRun2]
  have hcount : countApply i.number
      ((GatewayEvent.fetchIssues cfg.issueState :: GatewayEvent.fetchLabels :: ev1) ++
        [GatewayEvent.fetchIssues cfg.issueState, GatewayEvent.fetchLabels]) =
      (ds.map Detail.issueNumber).count i.number := by
    simp [countApply, List.filterMap_append, List.filterMap_cons, applyNumOf, hnumsA]
  rw [hcount]
  exact List.nodup_iff_count_le_one.mp hndds i.number

/-- Witness for the amended C9 at a concrete repository: the first run
completes and the single unlabeled issue is applied to at most once across
the two runs. -/
theorem c9_second_run_labels_nothing_witness :
    (∃ r1, (run repoOps [wRule]
      ⟨some false, some "0075ca", some false, some IssueState.opened⟩
      ⟨[wIssue], wLabelSet⟩).1 = Except.ok r1) ∧
    countApply wIssue.number
      ((run repoOps [wRule]
          ⟨some false, some "0075ca", some false, some IssueState.opened⟩
          ⟨[wIssue], wLabelSet⟩).2.1 ++
        (run repoOps [wRule]
          ⟨some false, some "0075ca", some false, some IssueState.opened⟩
          (run repoOps [wRule]
            ⟨some false, some "0075ca", some false, some IssueState.opened⟩
            ⟨[wIssue], wLabelSet⟩).2.2).2.1) ≤ 1 :=
  ⟨(c9_second_run_labels_nothing [wRule]
      ⟨some false, some "0075ca", some false, some IssueState.opened⟩
      ⟨[wIssue], wLabelSet⟩ (by simp) rfl (by simp)).1,
    (c9_second_run_labels_nothing [wRule]
      ⟨some false, some "0075ca", some false, some IssueState.opened⟩
      ⟨[wIssue], wLabelSet⟩ (by simp) rfl (by simp)).2.2 wIssue
      (List.mem_singleton.mpr rfl) rfl⟩

/-- Completeness of the creation loop: every requested candidate is either
already known or receives a creation call. -/
theorem createMissing_complete (ops : GatewayOps σ) (color : String) :
    ∀ (ls avail : List String) (s : σ) (avail1 : List String) (k : Nat)
      (ev : List GatewayEvent) (s1 : σ),
      createMissing ops color ls avail s = (avail1, k, ev, s1) →
      ∀ l ∈ ls, l ∈ avail ∨ ∃ ok,
        GatewayEvent.createLabel l color ("Auto-created label for " ++ l) ok ∈ ev := by
  intro ls
  induction ls with
  | nil =>
    intro avail s avail1 k ev s1 h l hl
    simp at hl
  | cons x rest ih =>
    intro avail s avail1 k ev s1 h l hl
    by_cases hc : avail.contains x
    · rw [show createMissing ops color (x :: rest) avail s =
          createMissing ops color rest avail s by
        simp only [createMissing, if_pos hc]] at h
      rcases List.mem_cons.mp hl with rfl | hl2
      · exact Or.inl ((contains_iff_mem avail l).mp hc)
      · exact ih avail s avail1 k ev s1 h l hl2
    · rcases hcall : ops.createLabel x color ("Auto-created label for " ++ x) s with ⟨r, sA⟩
      cases r with
      | ok u =>
        rcases hrec : createMissing ops color rest (avail ++ [x]) sA with ⟨availB, kB, evB, sB⟩
        rw [show createMissing ops color (x :: rest) avail s =
            (availB, kB + 1,
              GatewayEvent.createLabel x color ("Auto-created label for " ++ x) true :: evB,
              sB) by
          simp only [createMissing, if_neg hc, hcall, hrec]] at h
        injection h with h1 h2
        injection h2 with h2 h3
        injection h3 with h3 h4
        subst h3
        rcases List.mem_cons.mp hl with rfl | hl2
        · exact Or.inr ⟨true, List.mem_cons_self _ _⟩
        · rcases ih (avail ++ [x]) sA availB kB evB sB hrec l hl2 with hm | ⟨ok2, hm⟩
          · rcases List.mem_append.mp hm with hm1 | hm2
            · exact Or.inl hm1
            · rw [List.mem_singleton.mp hm2]
              exact Or.inr ⟨true, List.mem_cons_self _ _⟩
          · exact Or.inr ⟨ok2, List.mem_cons_of_mem _ hm⟩
      | error msg =>
        rcases hrec : createMissing ops color rest avail sA with ⟨availB, kB, evB, sB⟩
        rw [show createMissing ops color (x :: rest) avail s =
            (availB, kB,
              GatewayEvent.createLabel x color ("Auto-created label for " ++ x) false :: evB,
              sB) by
          simp only [createMissing, if_neg hc, hcall, hrec]] at h
        injection h with h1 h2
        injection h2 with h2 h3
        injection h3 with h3 h4
        subst h3
        rcases List.mem_cons.mp hl with rfl | hl2
        · exact Or.inr ⟨false, List.mem_cons_self _ _⟩
        · rcases ih avail sA availB kB evB sB hrec l hl2 with hm | ⟨ok2, hm⟩
          · exact Or.inl hm
          · exact Or.inr ⟨ok2, List.mem_cons_of_mem _ hm⟩

/-- Completeness of creation over a whole completed run of the loop: with the
creation flag truthy, every matched candidate of every processed (unskipped)
issue is either in the initial known-name set or is the target of some
creation call in the trace. -/
theorem processIssues_create_complete (ops : GatewayOps σ) (rules : List LabelingRule)
    (cfg : AutoLabelConfig) (hflag : truthy cfg.createMissingLabels = true) :
    ∀ (todo : List Issue) (avail : List String) (res : AutoLabelResult) (s : σ)
      (out : Except RunError AutoLabelResult) (ev : List GatewayEvent) (sF : σ),
      processIssues ops rules cfg todo avail res s = (out, ev, sF) →
      ∀ r, out = Except.ok r →
      ∀ i ∈ todo, (!truthy cfg.relabelExistingIssues && !i.labels.isEmpty) = false →
      ∀ l ∈ matchedLabels rules (issueText i),
        l ∈ avail ∨ ∃ c d ok, GatewayEvent.createLabel l c d ok ∈ ev := by
  intro todo
  induction todo with
  | nil =>
    intro avail res s out ev sF h r hr i hi
    simp at hi
  | cons a rest ih =>
    intro avail res s out ev sF h r hr i hi hcnd l hl
    by_cases hskip : (!truthy cfg.relabelExistingIssues && !a.labels.isEmpty) = true
    · rw [show processIssues ops rules cfg (a :: rest) avail res s =
          processIssues ops rules cfg rest avail res s by
        simp only [processIssues, if_pos hskip]] at h
      rcases List.mem_cons.mp hi with rfl | hi2
      · rw [hcnd] at hskip
        exact absurd hskip (by simp)
      · exact ih avail res s out ev sF h r hr i hi2 hcnd l hl
    · rcases hcm : (if truthy cfg.createMissingLabels then
          createMissing ops (colorOrDefault cfg.defaultLabelColor)
            (matchedLabels rules (issueText a)) avail s
        else (avail, 0, [], s)) with ⟨avail1, created, evC, s1⟩
      obtain ⟨c1, c2, c3, c4, c5, c6⟩ := createStep_spec ops cfg _ avail s avail1 created evC s1 hcm
      have hcmC : createMissing ops (colorOrDefault cfg.defaultLabelColor)
          (matchedLabels rules (issueText a)) avail s = (avail1, created, evC, s1) := by
        rw [if_pos hflag] at hcm
        exact hcm
      have hheadC : ∀ l2 ∈ matchedLabels rules (issueText a),
          l2 ∈ avail ∨ ∃ c d ok, GatewayEvent.createLabel l2 c d ok ∈ evC := by
        intro l2 hl2
        rcases createMissing_complete ops _ _ avail s avail1 created evC s1 hcmC l2 hl2 with
          hm | ⟨ok2, hm⟩
        · exact Or.inl hm
        · exact Or.inr ⟨_, _, ok2, hm⟩
      have hlift : ∀ avail2, avail2 = avail ++ createdNames evC →
          ∀ l2, l2 ∈ avail2 → l2 ∈ avail ∨ ∃ c d ok,
            GatewayEvent.createLabel l2 c d ok ∈ evC := by
        intro avail2 he l2 hm
        rw [he] at hm
        rcases List.mem_append.mp hm with hm1 | hm2
        · exact Or.inl hm1
        · obtain ⟨c, d, hm3⟩ := (mem_createdNames evC l2).mp hm2
          exact Or.inr ⟨c, d, true, hm3⟩
      cases hfil : (matchedLabels rules (issueText a)).filter (fun l2 => avail1.contains l2) with
      | nil =>
        rcases hrec : processIssues ops rules cfg rest avail1
            { res with labelsCreated := res.labelsCreated + created } s1 with ⟨outR, evR, s2⟩
        rw [show processIssues ops rules cfg (a :: rest) avail res s =
            (outR, evC ++ evR, s2) by
          simp only [processIssues, if_neg hskip, hcm, hfil, hrec]] at h
        injection h with h1 h2
        injection h2 with h2 h3
        subst h1 h2
        rcases List.mem_cons.mp hi with rfl | hi2
        · rcases hheadC l hl with hm | ⟨c, d, ok, hm⟩
          · exact Or.inl hm
          · exact Or.inr ⟨c, d, ok, List.mem_append_left _ hm⟩
        · rcases ih avail1 _ s1 outR evR s2 hrec r hr i hi2 hcnd l hl with hm | ⟨c, d, ok, hm⟩
          · rcases hlift avail1 c1 l hm with hm1 | ⟨c, d, ok, hm2⟩
            · exact Or.inl hm1
            · exact Or.inr ⟨c, d, ok, List.mem_append_left _ hm2⟩
          · exact Or.inr ⟨c, d, ok, List.mem_append_right _ hm⟩
      | cons v vs =>
        rcases happly : ops.labelIssue a.number (v :: vs) s1 with ⟨rA, s2⟩
        cases rA with
        | error msg =>
          rw [show processIssues ops rules cfg (a :: rest) avail res s =
              (Except.error (RunError.gatewayError msg),
                evC ++ [GatewayEvent.labelIssue a.number (v :: vs)], s2) by
            simp only [processIssues, if_neg hskip, hcm, hfil, happly]] at h
          injection h with h1 h2
          subst h1
          exact absurd hr (by simp)
        | ok uu =>
          rcases hrec : processIssues ops rules cfg rest avail1
              { totalIssues := res.totalIssues
                labeledIssues := res.labeledIssues + 1
                labelsCreated := res.labelsCreated + created
                details := res.details ++ [⟨a.number, a.title, v :: vs⟩] } s2 with
            ⟨outR, evR, s2'⟩
          rw [show processIssues ops rules cfg (a :: rest) avail res s =
              (outR, evC ++ GatewayEvent.labelIssue a.number (v :: vs) :: evR, s2') by
            simp only [processIssues, if_neg hskip, hcm, hfil, happly, hrec]] at h
          injection h with h1 h2
          injection h2 with h2 h3
          subst h1 h2
          rcases List.mem_cons.mp hi with rfl | hi2
          · rcases hheadC l hl with hm | ⟨c, d, ok, hm⟩
            · exact Or.inl hm
            · exact Or.inr ⟨c, d, ok, List.mem_append_left _ hm⟩
          · rcases ih avail1 _ s2 outR evR s2' hrec r hr i hi2 hcnd l hl with
              hm | ⟨c, d, ok, hm⟩
            · rcases hlift avail1 c1 l hm with hm1 | ⟨c, d, ok, hm2⟩
              · exact Or.inl hm1
              · exact Or.inr ⟨c, d, ok, List.mem_append_left _ hm2⟩
            · exact Or.inr ⟨c, d, ok, List.mem_append_right _ (List.mem_cons_of_mem _ hm)⟩

/-- The outcomes of the creation calls for one label name, in trace order. -/
def createFlagsFor (n : String) (evs : List GatewayEvent) : List Bool :=
  evs.filterMap fun e =>
    match e with
    | GatewayEvent.createLabel m _ _ ok => if m = n then some ok else none
    | _ => none

theorem createFlagsFor_append (n : String) (a b : List GatewayEvent) :
    createFlagsFor n (a ++ b) = createFlagsFor n a ++ createFlagsFor n b :=
  List.filterMap_append a b _

@[simp] theorem createFlagsFor_nil (n : String) : createFlagsFor n [] = [] := rfl

@[simp] theorem createFlagsFor_cons_fetchIssues (n : String) (st : Option IssueState)
    (evs : List GatewayEvent) :
    createFlagsFor n (GatewayEvent.fetchIssues st :: evs) = createFlagsFor n evs := by
  simp [createFlagsFor, List.filterMap_cons]

@[simp] theorem createFlagsFor_cons_fetchLabels (n : String) (evs : List GatewayEvent) :
    createFlagsFor n (GatewayEvent.fetchLabels :: evs) = createFlagsFor n evs := by
  simp [createFlagsFor, List.filterMap_cons]

@[simp] theorem createFlagsFor_cons_labelIssue (n : String) (m : Nat) (ls : List String)
    (evs : List GatewayEvent) :
    createFlagsFor n (GatewayEvent.labelIssue m ls :: evs) = createFlagsFor n evs := by
  simp [createFlagsFor, List.filterMap_cons]

theorem createFlagsFor_cons_create_eq (n c d : String) (ok : Bool)
    (evs : List GatewayEvent) :
    createFlagsFor n (GatewayEvent.createLabel n c d ok :: evs) =
      ok :: createFlagsFor n evs := by
  simp [createFlagsFor, List.filterMap_cons]

theorem createFlagsFor_cons_create_ne (m n c d : String) (ok : Bool)
    (evs : List GatewayEvent) (h : ¬m = n) :
    createFlagsFor n (GatewayEvent.createLabel m c d ok :: evs) =
      createFlagsFor n evs := by
  simp [createFlagsFor, List.filterMap_cons, h]

theorem mem_createFlagsFor (n c d : String) (ok : Bool) (evs : List GatewayEvent)
    (h : GatewayEvent.createLabel n c d ok ∈ evs) : ok ∈ createFlagsFor n evs :=
  List.mem_filterMap.mpr ⟨GatewayEvent.createLabel n c d ok, h, by simp⟩

theorem createFlagsFor_eq_nil (n : String) (evs : List GatewayEvent)
    (h : ∀ c d ok, GatewayEvent.createLabel n c d ok ∉ evs) :
    createFlagsFor n evs = [] := by
  induction evs with
  | nil => rfl
  | cons e evs2 ih =>
    have hrest : ∀ c d ok, GatewayEvent.createLabel n c d ok ∉ evs2 :=
      fun c d ok hm => h c d ok (List.mem_cons_of_mem _ hm)
    cases e with
    | fetchIssues st => rw [createFlagsFor_cons_fetchIssues]; exact ih hrest
    | fetchLabels => rw [createFlagsFor_cons_fetchLabels]; exact ih hrest
    | labelIssue m ls => rw [createFlagsFor_cons_labelIssue]; exact ih hrest
    | createLabel m c d ok =>
      by_cases hm : m = n
      · subst hm
        exact absurd (List.mem_cons_self _ _) (h c d ok)
      · rw [createFlagsFor_cons_create_ne m n c d ok evs2 hm]
        exact ih hrest

/-- In a list of failures followed by one final success, nothing follows a
success. -/
theorem eq_replicate_concat_true :
    ∀ (A : List Bool) (k : Nat) (B : List Bool),
      A ++ true :: B = List.replicate k false ++ [true] → B = [] := by
  intro A
  induction A with
  | nil =>
    intro k B h
    cases k with
    | zero =>
      simpa using h
    | succ k2 =>
      rw [List.replicate_succ, List.nil_append] at h
      injection h with h1 h2
      exact absurd h1 (by simp)
  | cons a A2 ih =>
    intro k B h
    cases k with
    | zero =>
      rw [List.replicate, List.nil_append] at h
      injection h with h1 h2
      exact absurd h2 (by simp)
    | succ k2 =>
      rw [List.replicate_succ, List.cons_append] at h
      injection h with h1 h2
      exact ih k2 B h2

/-- The creation calls one name receives from a single creation loop are some
failures, immediately followed by one success iff the loop created it. -/
theorem createMissing_flags_canon (ops : GatewayOps σ) (color : String) :
    ∀ (ls avail : List String) (s : σ) (avail1 : List String) (k : Nat)
      (ev : List GatewayEvent) (s1 : σ),
      createMissing ops color ls avail s = (avail1, k, ev, s1) →
      ∀ n,
        (n ∈ createdNames ev →
          ∃ m, createFlagsFor n ev = List.replicate m false ++ [true]) ∧
        (n ∉ createdNames ev → ∃ m, createFlagsFor n ev = List.replicate m false) := by
  intro ls
  induction ls with
  | nil =>
    intro avail s avail1 k ev s1 h n
    simp only [createMissing] at h
    injection h with h1 h2
    injection h2 with h2 h3
    injection h3 with h3 h4
    subst h3
    exact ⟨fun hm => absurd hm (by simp), fun _ => ⟨0, rfl⟩⟩
  | cons x rest ih =>
    intro avail s avail1 k ev s1 h n
    by_cases hc : avail.contains x
    · rw [show createMissing ops color (x :: rest) avail s =
          createMissing ops color rest avail s by
        simp only [createMissing, if_pos hc]] at h
      exact ih avail s avail1 k ev s1 h n
    · rcases hcall : ops.createLabel x color ("Auto-created label for " ++ x) s with ⟨r, sA⟩
      cases r with
      | ok u =>
        rcases hrec : createMissing ops color rest (avail ++ [x]) sA with ⟨availB, kB, evB, sB⟩
        rw [show createMissing ops color (x :: rest) avail s =
            (availB, kB + 1,
              GatewayEvent.createLabel x color ("Auto-created label for " ++ x) true :: evB,
              sB) by
          simp only [createMissing, if_neg hc, hcall, hrec]] at h
        injection h with h1 h2
        injection h2 with h2 h3
        injection h3 with h3 h4
        subst h3
        by_cases hn : x = n
        · subst hn
          have hflagsB : createFlagsFor x evB = [] := by
            refine createFlagsFor_eq_nil x evB ?_
            intro c d ok hm
            obtain ⟨-, -, -, -, -, hform⟩ :=
              createMissing_spec ops color rest (avail ++ [x]) sA availB kB evB sB hrec
            obtain ⟨n2, ok2, hne, hna, -⟩ := hform _ hm
            injection hne with e1 e2 e3 e4
            subst e1
            exact hna (List.mem_append_right _ (List.mem_singleton.mpr rfl))
          rw [createFlagsFor_cons_create_eq, hflagsB]
          refine ⟨fun _ => ⟨0, rfl⟩, fun hno => ?_⟩
          exact absurd (by simp) hno
        · rw [createFlagsFor_cons_create_ne x n _ _ _ evB hn]
          have hih := ih (avail ++ [x]) sA availB kB evB sB hrec n
          refine ⟨fun hm => hih.1 ?_, fun hno => hih.2 ?_⟩
          · rcases List.mem_cons.mp (by simpa using hm) with he | hm2
            · exact absurd he.symm hn
            · exact hm2
          · intro hm2
            exact hno (by simp [hm2])
      | error msg =>
        rcases hrec : createMissing ops color rest avail sA with ⟨availB, kB, evB, sB⟩
        rw [show createMissing ops color (x :: rest) avail s =
            (availB, kB,
              GatewayEvent.createLabel x color ("Auto-created label for " ++ x) false :: evB,
              sB) by
          simp only [createMissing, if_neg hc, hcall, hrec]] at h
        injection h with h1 h2
        injection h2 with h2 h3
        injection h3 with h3 h4
        subst h3
        have hih := ih avail sA availB kB evB sB hrec n
        have hcn : createdNames (GatewayEvent.createLabel x color
            ("Auto-created label for " ++ x) false :: evB) = createdNames evB := by
          simp
        by_cases hn : x = n
        · subst hn
          rw [createFlagsFor_cons_create_eq, hcn]
          refine ⟨fun hm => ?_, fun hno => ?_⟩
          · obtain ⟨m, hm2⟩ := hih.1 hm
            exact ⟨m + 1, by rw [hm2, List.replicate_succ, List.cons_append]⟩
          · obtain ⟨m, hm2⟩ := hih.2 hno
            exact ⟨m + 1, by rw [hm2, List.replicate_succ]⟩
        · rw [createFlagsFor_cons_create_ne x n _ _ _ evB hn, hcn]
          exact hih

/-- Over a whole pass of the issue loop, the creation calls any one name
receives are failures followed by at most one final success: once a label has
been created successfully it is in the known-name set and is never attempted
again. -/
theorem processIssues_flags_canon (ops : GatewayOps σ) (rules : List LabelingRule)
    (cfg : AutoLabelConfig) :
    ∀ (todo : List Issue) (avail : List String) (res : AutoLabelResult) (s : σ)
      (out : Except RunError AutoLabelResult) (ev : List GatewayEvent) (sF : σ),
      processIssues ops rules cfg todo avail res s = (out, ev, sF) →
      ∀ n,
        (n ∈ createdNames ev →
          ∃ m, createFlagsFor n ev = List.replicate m false ++ [true]) ∧
        (n ∉ createdNames ev → ∃ m, createFlagsFor n ev = List.replicate m false) := by
  intro todo
  induction todo with
  | nil =>
    intro avail res s out ev sF h n
    simp only [processIssues] at h
    injection h with h1 h2
    injection h2 with h2 h3
    subst h2
    exact ⟨fun hm => absurd hm (by simp), fun _ => ⟨0, rfl⟩⟩
  | cons a rest ih =>
    intro avail res s out ev sF h n
    by_cases hskip : (!truthy cfg.relabelExistingIssues && !a.labels.isEmpty) = true
    · rw [show processIssues ops rules cfg (a :: rest) avail res s =
          processIssues ops rules cfg rest avail res s by
        simp only [processIssues, if_pos hskip]] at h
      exact ih avail res s out ev sF h n
    · rcases hcm : (if truthy cfg.createMissingLabels then
          createMissing ops (colorOrDefault cfg.defaultLabelColor)
            (matchedLabels rules (issueText a)) avail s
        else (avail, 0, [], s)) with ⟨avail1, created, evC, s1⟩
      obtain ⟨c1, -, -, -, -, -⟩ := createStep_spec ops cfg _ avail s avail1 created evC s1 hcm
      have hcanonC : ∀ n2,
          (n2 ∈ createdNames evC →
            ∃ m, createFlagsFor n2 evC = List.replicate m false ++ [true]) ∧
          (n2 ∉ createdNames evC → ∃ m, createFlagsFor n2 evC = List.replicate m false) := by
        by_cases hflag : truthy cfg.createMissingLabels
        · rw [if_pos hflag] at hcm
          exact createMissing_flags_canon ops _ _ avail s avail1 created evC s1 hcm
        · rw [if_neg hflag] at hcm
          injection hcm with h1 h2
          injection h2 with h2 h3
          injection h3 with h3 h4
          subst h3
          exact fun n2 => ⟨fun hm => absurd hm (by simp), fun _ => ⟨0, rfl⟩⟩
      cases hfil : (matchedLabels rules (issueText a)).filter (fun l => avail1.contains l) with
      | nil =>
        rcases hrec : processIssues ops rules cfg rest avail1
            { res with labelsCreated := res.labelsCreated + created } s1 with ⟨outR, evR, s2⟩
        rw [show processIssues ops rules cfg (a :: rest) avail res s =
            (outR, evC ++ evR, s2) by
          simp only [processIssues, if_neg hskip, hcm, hfil, hrec]] at h
        injection h with h1 h2
        injection h2 with h2 h3
        subst h2
        obtain ⟨-, -, i3R, -⟩ :=
          processIssues_spec ops rules cfg rest avail1 _ s1 outR evR s2 hrec
        have hihR := ih avail1 _ s1 outR evR s2 hrec n
        have hcnev : createdNames (evC ++ evR) = createdNames evC ++ createdNames evR :=
          createdNames_append evC evR
        have hflags : createFlagsFor n (evC ++ evR) =
            createFlagsFor n evC ++ createFlagsFor n evR := createFlagsFor_append n evC evR
        by_cases hnC : n ∈ createdNames evC
        · obtain ⟨m, hm⟩ := (hcanonC n).1 hnC
          have hflagsR : createFlagsFor n evR = [] := by
            refine createFlagsFor_eq_nil n evR ?_
            intro c d ok hmem
            obtain ⟨-, n2, ok2, hne, hna⟩ := i3R _ hmem rfl
            injection hne with e1 e2 e3 e4
            subst e1
            exact hna (c1 ▸ List.mem_append_right avail hnC)
          refine ⟨fun _ => ⟨m, ?_⟩, fun hno => ?_⟩
          · rw [hflags, hm, hflagsR, List.append_nil]
          · exact absurd (hcnev ▸ List.mem_append_left _ hnC) hno
        · obtain ⟨m, hm⟩ := (hcanonC n).2 hnC
          by_cases hnR : n ∈ createdNames evR
          · obtain ⟨m2, hm2⟩ := hihR.1 hnR
            refine ⟨fun _ => ⟨m + m2, ?_⟩, fun hno => ?_⟩
            · rw [hflags, hm, hm2, List.replicate_add, List.append_assoc]
            · exact absurd (hcnev ▸ List.mem_append_right _ hnR) hno
          · obtain ⟨m2, hm2⟩ := hihR.2 hnR
            refine ⟨fun hyes => ?_, fun _ => ⟨m + m2, ?_⟩⟩
            · rw [hcnev] at hyes
              rcases List.mem_append.mp hyes with hy1 | hy2
              · exact absurd hy1 hnC
              · exact absurd hy2 hnR
            · rw [hflags, hm, hm2, List.replicate_add]
      | cons v vs =>
        rcases happly : ops.labelIssue a.number (v :: vs) s1 with ⟨rA, s2⟩
        cases rA with
        | error msg =>
          rw [show processIssues ops rules cfg (a :: rest) avail res s =
              (Except.error (RunError.gatewayError msg),
                evC ++ [GatewayEvent.labelIssue a.number (v :: vs)], s2) by
            simp only [processIssues, if_neg hskip, hcm, hfil, happly]] at h
          injection h with h1 h2
          injection h2 with h2 h3
          subst h2
          have hflags : createFlagsFor n (evC ++ [GatewayEvent.labelIssue a.number (v :: vs)]) =
              createFlagsFor n evC := by
            rw [createFlagsFor_append, createFlagsFor_cons_labelIssue, createFlagsFor_nil,
              List.append_nil]
          have hcnev : createdNames (evC ++ [GatewayEvent.labelIssue a.number (v :: vs)]) =
              createdNames evC := by
            rw [createdNames_append]
            simp
          rw [hflags, hcnev]
          exact hcanonC n
        | ok uu =>
          rcases hrec : processIssues ops rules cfg rest avail1
              { totalIssues := res.totalIssues
                labeledIssues := res.labeledIssues + 1
                labelsCreated := res.labelsCreated + created
                details := res.details ++ [⟨a.number, a.title, v :: vs⟩] } s2 with
            ⟨outR, evR, s2'⟩
          rw [show processIssues ops rules cfg (a :: rest) avail res s =
              (outR, evC ++ GatewayEvent.labelIssue a.number (v :: vs) :: evR, s2') by
            simp only [processIssues, if_neg hskip, hcm, hfil, happly, hrec]] at h
          injection h with h1 h2
          injection h2 with h2 h3
          subst h2
          obtain ⟨-, -, i3R, -⟩ :=
            processIssues_spec ops rules cfg rest avail1 _ s2 outR evR s2' hrec
          have hihR := ih avail1 _ s2 outR evR s2' hrec n
          have hcnev : createdNames (evC ++ GatewayEvent.labelIssue a.number (v :: vs) :: evR) =
              createdNames evC ++ createdNames evR := by
            rw [createdNames_append, createdNames_cons_labelIssue]
          have hflags : createFlagsFor n (evC ++ GatewayEvent.labelIssue a.number (v :: vs)
              :: evR) = createFlagsFor n evC ++ createFlagsFor n evR := by
            rw [createFlagsFor_append, createFlagsFor_cons_labelIssue]
          by_cases hnC : n ∈ createdNames evC
          · obtain ⟨m, hm⟩ := (hcanonC n).1 hnC
            have hflagsR : createFlagsFor n evR = [] := by
              refine createFlagsFor_eq_nil n evR ?_
              intro c d ok hmem
              obtain ⟨-, n2, ok2, hne, hna⟩ := i3R _ hmem rfl
              injection hne with e1 e2 e3 e4
              subst e1
              exact hna (c1 ▸ List.mem_append_right avail hnC)
            refine ⟨fun _ => ⟨m, ?_⟩, fun hno => ?_⟩
            · rw [hflags, hm, hflagsR, List.append_nil]
            · exact absurd (hcnev ▸ List.mem_append_left _ hnC) hno
          · obtain ⟨m, hm⟩ := (hcanonC n).2 hnC
            by_cases hnR : n ∈ createdNames evR
            · obtain ⟨m2, hm2⟩ := hihR.1 hnR
              refine ⟨fun _ => ⟨m + m2, ?_⟩, fun hno => ?_⟩
              · rw [hflags, hm, hm2, List.replicate_add, List.append_assoc]
              · exact absurd (hcnev ▸ List.mem_append_right _ hnR) hno
            · obtain ⟨m2, hm2⟩ := hihR.2 hnR
              refine ⟨fun hyes => ?_, fun _ => ⟨m + m2, ?_⟩⟩
              · rw [hcnev] at hyes
                rcases List.mem_append.mp hyes with hy1 | hy2
                · exact absurd hy1 hnC
                · exact absurd hy2 hnR
              · rw [hflags, hm, hm2, List.replicate_add]

/-- From the canonical flags shape: no creation call for a name ever follows
a successful creation call for it. -/
theorem no_recreate_of_flags_canon (n : String) (ev : List GatewayEvent)
    (hcanon : n ∈ createdNames ev →
      ∃ m, createFlagsFor n ev = List.replicate m false ++ [true]) :
    ∀ (evA : List GatewayEvent) (c d : String) (evB : List GatewayEvent),
      ev = evA ++ GatewayEvent.createLabel n c d true :: evB →
      ∀ c2 d2 ok2, GatewayEvent.createLabel n c2 d2 ok2 ∉ evB := by
  intro evA c d evB hsplit c2 d2 ok2 hmem
  have hncr : n ∈ createdNames ev := by
    rw [hsplit]
    refine (mem_createdNames _ n).mpr ⟨c, d, ?_⟩
    exact List.mem_append_right _ (List.mem_cons_self _ _)
  obtain ⟨m, hm⟩ := hcanon hncr
  have hflags : createFlagsFor n ev =
      createFlagsFor n evA ++ true :: createFlagsFor n evB := by
    rw [hsplit, createFlagsFor_append, createFlagsFor_cons_create_eq]
  have hBnil : createFlagsFor n evB = [] := by
    refine eq_replicate_concat_true (createFlagsFor n evA) m (createFlagsFor n evB) ?_
    rw [← hflags, hm]
  have hok : ok2 ∈ createFlagsFor n evB := mem_createFlagsFor n c2 d2 ok2 evB hmem
  rw [hBnil] at hok
  simp at hok

/-- Claim C2: with a falsy `createMissingLabels` no creation call is ever
made and applied labels all pre-exist in the fetched label set.  With a
truthy flag: every creation call targets a candidate name missing from the
fetched set, with the configured color (whenever one is set and nonempty) and
the generated description, and succeeds exactly when the gateway accepts it;
`labelsCreated` counts exactly the distinct successfully created names;
conversely, on a completed run every matched candidate of every processed
issue not already known receives a creation call; and once a name is created
successfully it is in the known set and is never the target of another
creation call. -/
theorem c2_creation_gating (is : List Issue) (ls : List Label)
    (cR : String → Except String Unit) (aR : Nat → List String → Except String Unit)
    (rules : List LabelingRule) (cfg : AutoLabelConfig) (hrules : rules ≠ []) :
    (truthy cfg.createMissingLabels = false →
      (∀ e ∈ (run (scripted (Except.ok is) (Except.ok ls) cR aR) rules cfg ()).2.1,
        isCreateEvent e = false) ∧
      (∀ r, (run (scripted (Except.ok is) (Except.ok ls) cR aR) rules cfg ()).1 =
          Except.ok r →
        ∀ d ∈ r.details, ∀ l ∈ d.appliedLabels, l ∈ ls.map Label.name)) ∧
    (truthy cfg.createMissingLabels = true →
      (∀ n c d ok, GatewayEvent.createLabel n c d ok ∈
          (run (scripted (Except.ok is) (Except.ok ls) cR aR) rules cfg ()).2.1 →
        n ∉ ls.map Label.name ∧
        d = "Auto-created label for " ++ n ∧
        (ok = true ↔ cR n = Except.ok ()) ∧
        (∀ cl, cfg.defaultLabelColor = some cl → cl ≠ "" → c = cl)) ∧
      (∀ r, (run (scripted (Except.ok is) (Except.ok ls) cR aR) rules cfg ()).1 =
          Except.ok r →
        r.labelsCreated =
          (createdNames (run (scripted (Except.ok is) (Except.ok ls) cR aR)
            rules cfg ()).2.1).length ∧
        (createdNames (run (scripted (Except.ok is) (Except.ok ls) cR aR)
          rules cfg ()).2.1).Nodup) ∧
      (∀ r, (run (scripted (Except.ok is) (Except.ok ls) cR aR) rules cfg ()).1 =
          Except.ok r →
        ∀ i ∈ is, (!truthy cfg.relabelExistingIssues && !i.labels.isEmpty) = false →
        ∀ l ∈ matchedLabels rules (issueText i),
          l ∈ ls.map Label.name ∨ ∃ c d ok, GatewayEvent.createLabel l c d ok ∈
            (run (scripted (Except.ok is) (Except.ok ls) cR aR) rules cfg ()).2.1) ∧
      (∀ n (evA : List GatewayEvent) (c d : String) (evB : List GatewayEvent),
        (run (scripted (Except.ok is) (Except.ok ls) cR aR) rules cfg ()).2.1 =
          evA ++ GatewayEvent.createLabel n c d true :: evB →
        ∀ c2 d2 ok2, GatewayEvent.createLabel n c2 d2 ok2 ∉ evB)) := by
  obtain ⟨out, ev, u, hPI, hRun⟩ := run_scripted_spec is ls cR aR rules cfg hrules
  obtain ⟨i1, i2, i3, i4⟩ :=
    processIssues_spec _ rules cfg is (ls.map Label.name) _ () out ev u hPI
  have hflagIff := processIssues_create_flag (Except.ok is) (Except.ok ls) cR aR rules cfg
    is (ls.map Label.name) _ out ev u hPI
  rw [hRun]
  constructor
  · intro hflag
    constructor
    · intro e he
      rcases List.mem_cons.mp he with rfl | he2
      · rfl
      · rcases List.mem_cons.mp he2 with rfl | he3
        · rfl
        · cases hce : isCreateEvent e
          · rfl
          · obtain ⟨hft, -⟩ := i3 e he3 hce
            rw [hflag] at hft
            exact absurd hft (by simp)
    · intro r hr d hd l hl
      obtain ⟨ds, j1, j2, j3, j4, j5, j6, j7⟩ := i4 r hr
      rw [j2, List.nil_append] at hd
      obtain ⟨i, hi, k1, k2, k3, k4, evA, evB, k5, -, k6⟩ := j7 d hd
      rcases List.mem_append.mp (k6 l hl) with h1 | h2
      · exact h1
      · obtain ⟨c, dd, hmem⟩ := (mem_createdNames evA l).mp h2
        have hmemev : GatewayEvent.createLabel l c dd true ∈ ev := by
          rw [k5]
          exact List.mem_append_left _ hmem
        obtain ⟨hft, -⟩ := i3 _ hmemev rfl
        rw [hflag] at hft
        exact absurd hft (by simp)
  · intro hflag
    refine ⟨?_, ?_, ?_, ?_⟩
    · intro n c d ok hm
      rcases List.mem_cons.mp hm with heq | hm2
      · exact absurd heq (by simp)
      · rcases List.mem_cons.mp hm2 with heq | hm3
        · exact absurd heq (by simp)
        · obtain ⟨-, n2, ok2, hne, hnotin⟩ := i3 _ hm3 rfl
          simp only [GatewayEvent.createLabel.injEq] at hne
          obtain ⟨e1, e2, e3, e4⟩ := hne
          refine ⟨e1 ▸ hnotin, by rw [e3, ← e1], hflagIff n c d ok hm3, ?_⟩
          intro cl hcl hclne
          rw [e2, hcl]
          simp [colorOrDefault, hclne]
    · intro r hr
      obtain ⟨ds, j1, j2, j3, j4, j5, j6, j7⟩ := i4 r hr
      refine ⟨?_, ?_⟩
      · simpa using j4
      · simpa using i1
    · intro r hr i hi hcnd l hl
      rcases processIssues_create_complete _ rules cfg hflag is (ls.map Label.name) _ ()
          out ev u hPI r hr i hi hcnd l hl with hm | ⟨c, d, ok, hm⟩
      · exact Or.inl hm
      · exact Or.inr ⟨c, d, ok, List.mem_cons_of_mem _ (List.mem_cons_of_mem _ hm)⟩
    · intro n evA c d evB hsplit c2 d2 ok2 hmem
      have hcanonPI := processIssues_flags_canon _ rules cfg is (ls.map Label.name) _ ()
        out ev u hPI n
      refine no_recreate_of_flags_canon n
        (GatewayEvent.fetchIssues cfg.issueState :: GatewayEvent.fetchLabels :: ev) ?_
        evA c d evB hsplit c2 d2 ok2 hmem
      intro hncr
      obtain ⟨m, hm⟩ := hcanonPI.1 (by simpa using hncr)
      exact ⟨m, by simpa using hm⟩

/-- Witness for C2 exercising the truthy branch on a concrete run: the
missing matched candidate "new" actually receives a (successful) creation
call, the count names it, and the creation-completeness disjunction holds at
it. -/
theorem c2_creation_gating_witness :
    truthy wCfgCreate.createMissingLabels = true ∧
    GatewayEvent.createLabel "new" "0075ca" "Auto-created label for new" true ∈
      (run (scripted (Except.ok [wIssue]) (Except.ok wLabelSet) (fun _ => Except.ok ())
        (fun _ _ => Except.ok ())) [wRuleNew] wCfgCreate ()).2.1 ∧
    (⟨1, 1, 1, [⟨1, "bug: crash", ["new"]⟩]⟩ : AutoLabelResult).labelsCreated =
      (createdNames (run (scripted (Except.ok [wIssue]) (Except.ok wLabelSet)
        (fun _ => Except.ok ()) (fun _ _ => Except.ok ()))
        [wRuleNew] wCfgCreate ()).2.1).length ∧
    ("new" ∈ wLabelSet.map Label.name ∨ ∃ c d ok,
      GatewayEvent.createLabel "new" c d ok ∈
        (run (scripted (Except.ok [wIssue]) (Except.ok wLabelSet) (fun _ => Except.ok ())
          (fun _ _ => Except.ok ())) [wRuleNew] wCfgCreate ()).2.1) :=
  ⟨rfl,
    by decide,
    (((c2_creation_gating [wIssue] wLabelSet (fun _ => Except.ok ())
      (fun _ _ => Except.ok ()) [wRuleNew] wCfgCreate (by simp)).2 rfl).2.1
      ⟨1, 1, 1, [⟨1, "bug: crash", ["new"]⟩]⟩ (by rfl)).1,
    (((c2_creation_gating [wIssue] wLabelSet (fun _ => Except.ok ())
      (fun _ _ => Except.ok ()) [wRuleNew] wCfgCreate (by simp)).2 rfl).2.2.1
      ⟨1, 1, 1, [⟨1, "bug: crash", ["new"]⟩]⟩ (by rfl) wIssue
      (List.mem_singleton.mpr rfl) rfl "new" (by decide))⟩

def wRuleEnh : LabelingRule := ⟨fun _ => true, ["enhancement"], none⟩

def wLabelSet2 : List Label := [⟨"bug", "d73a4a", none⟩, ⟨"enhancement", "a2eeef", none⟩]

/-- Claim C4: the candidate set of an issue is the union, in rule order and
first-seen deduplicated, of the label lists of all matching rules (a name is
a candidate iff some matching rule lists it), and on a completed run every
labeled issue receives in one application call exactly the candidates known
at processing time: the apply events are the details records one for one,
and each applied list equals the full matched-candidate list of
`title ++ " " ++ (body or "")` filtered to the names available (fetched or
created earlier in the trace) at that point. -/
theorem c4_union_dedup_single_call (is : List Issue) (ls : List Label)
    (cR : String → Except String Unit) (aR : Nat → List String → Except String Unit)
    (rules : List LabelingRule) (cfg : AutoLabelConfig) (hrules : rules ≠ []) :
    (∀ text : String,
      (matchedLabels rules text).Nodup ∧
      matchedLabels rules text = dedupFirstSeen (matchingRulesLabels rules text) ∧
      (∀ y, y ∈ matchedLabels rules text ↔
        ∃ ru, ru ∈ rules ∧ ru.pattern text = true ∧ y ∈ ru.labels)) ∧
    (∀ r, (run (scripted (Except.ok is) (Except.ok ls) cR aR) rules cfg ()).1 =
        Except.ok r →
      applyEvents (run (scripted (Except.ok is) (Except.ok ls) cR aR)
          rules cfg ()).2.1 = r.details.map detailEvent ∧
      ∀ d ∈ r.details, ∃ i, i ∈ is ∧ d.issueNumber = i.number ∧ d.title = i.title ∧
        d.appliedLabels ≠ [] ∧
        ∃ evA evB,
          (run (scripted (Except.ok is) (Except.ok ls) cR aR) rules cfg ()).2.1 =
            evA ++ GatewayEvent.labelIssue d.issueNumber d.appliedLabels :: evB ∧
          d.appliedLabels =
            (matchedLabels rules (i.title ++ " " ++ i.body.getD "")).filter
              (fun l => (ls.map Label.name ++ createdNames evA).contains l)) := by
  constructor
  · intro text
    refine ⟨?_, matchedLabels_eq_dedupFirstSeen rules text, ?_⟩
    · rw [matchedLabels_eq_dedupFirstSeen]
      exact (dedupFirstSeenAux_mem_nodup (matchingRulesLabels rules text) []).2
    · intro y
      rw [matchedLabels_eq_dedupFirstSeen]
      simp only [dedupFirstSeen]
      rw [(dedupFirstSeenAux_mem_nodup (matchingRulesLabels rules text) []).1 y]
      simp only [List.not_mem_nil, not_false_iff, and_true]
      exact mem_matchingRulesLabels rules text y
  · obtain ⟨out, ev, u, hPI, hRun⟩ := run_scripted_spec is ls cR aR rules cfg hrules
    obtain ⟨-, -, -, i4⟩ :=
      processIssues_spec _ rules cfg is (ls.map Label.name) _ () out ev u hPI
    rw [hRun]
    intro r hr
    obtain ⟨ds, j1, j2, j3, j4, j5, j6, j7⟩ := i4 r hr
    constructor
    · rw [j2, List.nil_append]
      simpa using j5
    · intro d hd
      rw [j2, List.nil_append] at hd
      obtain ⟨i, hi, k1, k2, k3, -, evA, evB, k5, keq, -⟩ := j7 d hd
      refine ⟨i, hi, k1, k2, k3,
        GatewayEvent.fetchIssues cfg.issueState :: GatewayEvent.fetchLabels :: evA,
        evB, ?_, ?_⟩
      · rw [k5]
        rfl
      · rw [keq]
        simp only [issueText, createdNames_cons_fetchIssues, createdNames_cons_fetchLabels]

/-- Witness for C4 exercising a genuine multi-rule union: two rules both
match the issue, their label lists are united in rule order, and the single
apply call delivers both labels to the issue. -/
theorem c4_union_dedup_single_call_witness :
    matchedLabels [wRule, wRuleEnh] (issueText wIssue) = ["bug", "enhancement"] ∧
    matchedLabels [wRule, wRuleEnh] (issueText wIssue) =
      dedupFirstSeen (matchingRulesLabels [wRule, wRuleEnh] (issueText wIssue)) ∧
    (run (scripted (Except.ok [wIssue]) (Except.ok wLabelSet2) (fun _ => Except.ok ())
      (fun _ _ => Except.ok ())) [wRule, wRuleEnh] DEFAULT_CONFIG ()).1 =
      Except.ok ⟨1, 1, 0, [⟨1, "bug: crash", ["bug", "enhancement"]⟩]⟩ ∧
    applyEvents (run (scripted (Except.ok [wIssue]) (Except.ok wLabelSet2)
        (fun _ => Except.ok ()) (fun _ _ => Except.ok ()))
        [wRule, wRuleEnh] DEFAULT_CONFIG ()).2.1 =
      ((⟨1, 1, 0, [⟨1, "bug: crash", ["bug", "enhancement"]⟩]⟩ :
        AutoLabelResult)).details.map detailEvent :=
  ⟨rfl,
    ((c4_union_dedup_single_call [wIssue] wLabelSet2 (fun _ => Except.ok ())
      (fun _ _ => Except.ok ()) [wRule, wRuleEnh] DEFAULT_CONFIG (by simp)).1
      (issueText wIssue)).2.1,
    rfl,
    ((c4_union_dedup_single_call [wIssue] wLabelSet2 (fun _ => Except.ok ())
      (fun _ _ => Except.ok ()) [wRule, wRuleEnh] DEFAULT_CONFIG (by simp)).2
      ⟨1, 1, 0, [⟨1, "bug: crash", ["bug", "enhancement"]⟩]⟩ (by rfl)).1⟩
